import Mathlib

/-!
Verification development for the oomph-lib cross-mesh coupling code.

Shallow embedding of
* `src/generic/mesh_as_geometric_object.h` (class `MeshAsGeomObject`),
* `src/generic/sum_of_matrices.cc` (`SumOfMatrices::multiply`),
* `src/generic/shape.h` (namespace `OneDimLagrange`),
* `src/navier_stokes/refineable_navier_stokes_elements.h` (refineable
  Crouzeix-Raviart and Taylor-Hood elements),
* `demo_drivers/mpi/multi_domain/boussinesq_convection/multimesh_boussinesq_convection.cc`.

C++ `double` is embedded as `ℚ` (exact arithmetic), `unsigned` as `Nat`,
`Vector<T>` as `List T`, a pointer that may be null as `Option`, and a function
that may throw `OomphLibError` returns `Except String`.  Where the rounding of
`double` decides a property (the pressure round trip between father and sons),
the operations are embedded a second time with every result passed through a
rounding function, `round_to_double` being IEEE 754 binary64 rounding to nearest.
-/

namespace oomph

/-! ## Definitions -/

/-! ### Geometric elements and the mesh as a geometric object -/

/-- Modelled from the spec: the class `FiniteElement` (the "Geometric Element
Adapter" of §4.1) is declared outside the available sources.  It exposes the
forward map `position(t, s)` and an inversion `locate_zeta(zeta, s)` that takes
the target point and an initial guess for the local coordinate, and reports
failure by returning nothing instead of throwing. -/
structure FiniteElement where
  position : Nat → List ℚ → List ℚ
  locate_zeta : List ℚ → List ℚ → Option (List ℚ)

/-- Data members of `MeshAsGeomObject` (lines 72-104 of the header).  Pointers to
`Data` and to the communicator are embedded as identifiers; `NLagrangian` is the
member inherited from `GeomObject` that `nlagrangian()` returns. -/
structure MeshAsGeomObject where
  NLagrangian : Nat
  Geom_data_pt : List Nat
  Sub_geom_object_pt : List FiniteElement
  Bin_object_coord_pairs : List (List (FiniteElement × List ℚ))
  Min_coords : List ℚ
  Max_coords : List ℚ
  Nbin_x : Nat
  Nbin_y : Nat
  Nbin_z : Nat
  Current_min_spiral_level : Nat
  Current_max_spiral_level : Nat
  Communicator_pt : Option Nat

/-- Modelled from the spec: the configuration constants of §6 used by the point
locator (they are not data members of the class): the margin by which a query
point may leave the bounding box and still be searched for, and the overshoot
by which a located local coordinate may leave the reference region. -/
structure LocateConfig where
  margin : ℚ
  overshoot : ℚ

/-- Output arguments of `locate_zeta`: the sub-object pointer (null when nothing
was found) and the local coordinate `s`. -/
structure LocateResult where
  sub_geom_object_pt : Option FiniteElement
  s : List ℚ

/-- The grid of bins actually used: in one or two Lagrangian dimensions the
unused directions hold a single layer of bins. -/
structure BinGrid where
  nx : Nat
  ny : Nat
  nz : Nat

namespace BinGrid

/-- Total number of bins, `Nbin_x*Nbin_y[*Nbin_z]`. -/
def nbins (g : BinGrid) : Nat := g.nx * g.ny * g.nz

/-- Bin number of the bin with grid indices `(i, j, k)`; `i` runs fastest. -/
def encode (g : BinGrid) (i j k : Nat) : Nat := i + g.nx * (j + g.ny * k)

/-- Grid indices `(i, j, k)` of a bin number. -/
def decode (g : BinGrid) (b : Nat) : Nat × Nat × Nat :=
  (b % g.nx, (b / g.nx) % g.ny, b / (g.nx * g.ny))

/-- Chebyshev distance between two grid-index triples. -/
def chebyshev (p q : Nat × Nat × Nat) : Nat :=
  max (Int.natAbs ((p.1 : ℤ) - q.1))
    (max (Int.natAbs ((p.2.1 : ℤ) - q.2.1)) (Int.natAbs ((p.2.2 : ℤ) - q.2.2)))

/-- Offsets `-k, ..., k` in one grid direction. -/
def offsets (k : Nat) : List ℤ :=
  (List.range (2 * k + 1)).map (fun (n : Nat) => (n : ℤ) - (k : ℤ))

/-- Offset triples on the surface of the cube of half-width `k`. -/
def shell (k : Nat) : List (ℤ × ℤ × ℤ) :=
  (((offsets k).product ((offsets k).product (offsets k))).filter
    (fun d => max d.1.natAbs (max d.2.1.natAbs d.2.2.natAbs) = k))

/-- A candidate index triple is kept only when it lies inside the grid. -/
def inside (g : BinGrid) (c : ℤ × ℤ × ℤ) : Bool :=
  decide (0 ≤ c.1) && decide (c.1 < g.nx) && decide (0 ≤ c.2.1) && decide (c.2.1 < g.ny)
    && decide (0 ≤ c.2.2) && decide (c.2.2 < g.nz)

/-- Modelled from the spec: `get_neighbouring_bins_helper` is only declared in
the header, its body is not available.  Following §4.2 and §3 it is a pure
function over the grid topology: the candidates are the bins at offset `d` from
`bin` for every offset triple on the shell of level `level`, and a candidate
beyond an edge of the grid is clipped (dropped), not wrapped. -/
def get_neighbouring_bins_helper (g : BinGrid) (bin level : Nat) : List Nat :=
  let p := g.decode bin
  (((shell level).map
      (fun d => (((p.1 : ℤ) + d.1, (p.2.1 : ℤ) + d.2.1, (p.2.2 : ℤ) + d.2.2) : ℤ × ℤ × ℤ))).filter
      g.inside).map
    (fun c => g.encode c.1.toNat c.2.1.toNat c.2.2.toNat)

end BinGrid

namespace MeshAsGeomObject

/-- Function `nlagrangian()` of the base class. -/
def nlagrangian (m : MeshAsGeomObject) : Nat := m.NLagrangian

/-- Grid spanned by the first `nlagrangian()` of `Nbin_x, Nbin_y, Nbin_z`. -/
def grid (m : MeshAsGeomObject) : BinGrid :=
  { nx := m.Nbin_x
    ny := if 2 ≤ m.nlagrangian then m.Nbin_y else 1
    nz := if 3 ≤ m.nlagrangian then m.Nbin_z else 1 }

/-- Flush the storage for the binning method (lines 297-301):
`Bin_object_coord_pairs.clear()`. -/
def flush_bins_of_objects (m : MeshAsGeomObject) : MeshAsGeomObject :=
  { m with Bin_object_coord_pairs := [] }

end MeshAsGeomObject

/-- Index of the bin, in one direction with `nbin` bins spanning `[lo, hi]`,
that holds the coordinate `x`; a point on the upper edge, or beyond an edge
within the margin, is put into the nearest bin. -/
def bin_coord (nbin : Nat) (lo hi x : ℚ) : Nat :=
  let b := (Rat.floor ((nbin : ℚ) * ((x - lo) / (hi - lo)))).toNat
  if nbin ≤ b then nbin - 1 else b

/-- Is the point outside the bounding box by more than the margin in one of the
first `n` directions? -/
def outside_box (n : Nat) (lo hi : List ℚ) (margin : ℚ) (zeta : List ℚ) : Bool :=
  (List.range n).any (fun i =>
    decide (zeta.getD i 0 < lo.getD i 0 - margin) || decide (hi.getD i 0 + margin < zeta.getD i 0))

/-- Does a local coordinate lie in the reference region `[-1,1]^d`, up to the
overshoot? -/
def in_reference_region (overshoot : ℚ) (s : List ℚ) : Bool :=
  s.all (fun c => decide (-1 - overshoot ≤ c) && decide (c ≤ 1 + overshoot))

/-- Step 3 of the locate algorithm (§4.3): candidates are tried in order, the
inversion starts from the stored sample coordinate, the first success wins. -/
def try_candidates (cfg : LocateConfig) (zeta : List ℚ) :
    List (FiniteElement × List ℚ) → Option (FiniteElement × List ℚ)
  | [] => none
  | (el, s0) :: rest =>
    match el.locate_zeta zeta s0 with
    | some s => if in_reference_region cfg.overshoot s then some (el, s)
                else try_candidates cfg zeta rest
    | none => try_candidates cfg zeta rest

namespace MeshAsGeomObject

/-- Bin number of the bin containing `zeta` (step 1 of §4.3). -/
def bin_number (m : MeshAsGeomObject) (zeta : List ℚ) : Nat :=
  let g := m.grid
  let c := fun (i n : Nat) =>
    if i < m.nlagrangian then
      bin_coord n (m.Min_coords.getD i 0) (m.Max_coords.getD i 0) (zeta.getD i 0)
    else 0
  g.encode (c 0 g.nx) (c 1 g.ny) (c 2 g.nz)

/-- All `(element, sample)` pairs stored in the bins of the ring of the given
level around `bin`, in ring order. -/
def ring_candidates (m : MeshAsGeomObject) (bin level : Nat) :
    List (FiniteElement × List ℚ) :=
  ((m.grid.get_neighbouring_bins_helper bin level).map
    (fun b => m.Bin_object_coord_pairs.getD b [])).flatten

/-- Ring levels that are searched: inside a spiral only the levels from
`Current_min_spiral_level` to `Current_max_spiral_level`, with spiralling
switched off every level until the whole grid is covered. -/
def search_levels (m : MeshAsGeomObject) (called_within_spiral : Bool) : List Nat :=
  if called_within_spiral then
    (List.range (m.Current_max_spiral_level + 1)).filter
      (fun l => decide (m.Current_min_spiral_level ≤ l))
  else List.range (max m.grid.nx (max m.grid.ny m.grid.nz))

/-- Modelled from the spec: `spiraling_locate_zeta` is only declared in the
header (lines 200-210), its body is not available.  Algorithm `locate` of §4.3:
a point outside the bounding box by more than the margin is reported as not
found without a search; otherwise the rings around the bin of the point are
searched level by level and the first candidate whose inversion succeeds inside
the reference region is returned.  When nothing is found the pointer is null and
`s` is left as passed in. -/
def spiraling_locate_zeta (m : MeshAsGeomObject) (cfg : LocateConfig) (zeta : List ℚ)
    (s : List ℚ) (called_within_spiral : Bool) : LocateResult :=
  if outside_box m.nlagrangian m.Min_coords m.Max_coords cfg.margin zeta then
    { sub_geom_object_pt := none, s := s }
  else
    match try_candidates cfg zeta
        (((m.search_levels called_within_spiral).map
          (fun l => m.ring_candidates (m.bin_number zeta) l)).flatten) with
    | some (el, s1) => { sub_geom_object_pt := some el, s := s1 }
    | none => { sub_geom_object_pt := none, s := s }

/-- Function `locate_zeta` (lines 170-198).  Under `PARANOID` a warning is
issued when the initial-guess flag is set; then `spiraling_locate_zeta` is
called with spiralling switched off.  The first component collects the
warnings. -/
def locate_zeta (paranoid : Bool) (m : MeshAsGeomObject) (cfg : LocateConfig)
    (zeta : List ℚ) (s : List ℚ) (use_coordinate_as_initial_guess : Bool) :
    List String × LocateResult :=
  let warnings :=
    if paranoid && use_coordinate_as_initial_guess then
      ["Ignoring the use_coordinate_as_initial_guess argument."]
    else []
  let called_within_spiral := false
  (warnings, m.spiraling_locate_zeta cfg zeta s called_within_spiral)

/-- Function `position(t, zeta, r)` (lines 224-257): locate `zeta`; throw when no
sub-object contains it, otherwise call the sub-object's `position(t, s, r)`. -/
def position (paranoid : Bool) (m : MeshAsGeomObject) (cfg : LocateConfig)
    (t : Nat) (zeta : List ℚ) : Except String (List ℚ) :=
  let n_lagrangian := m.nlagrangian
  let s := List.replicate n_lagrangian (0 : ℚ)
  let found := (m.locate_zeta paranoid cfg zeta s false).2
  match found.sub_geom_object_pt with
  | none => Except.error "Cannot locate zeta"
  | some sub => Except.ok (sub.position t found.s)

/-- Function `position(zeta, r)` (lines 212-221): the position at the current
time, `t = 0`. -/
def position_now (paranoid : Bool) (m : MeshAsGeomObject) (cfg : LocateConfig)
    (zeta : List ℚ) : Except String (List ℚ) :=
  let t := 0
  m.position paranoid cfg t zeta

end MeshAsGeomObject

/-! ### Building the bin structure -/

/-- Modelled from the spec: the class `Mesh` is declared outside the available
sources; of the mesh collaborator interface of §6 the bin structure needs the
elements and their dimension. -/
structure Mesh where
  dim : Nat
  element_pt : List FiniteElement

/-- Sample coordinates along one axis of the reference region: `nsample` equally
spaced values starting at `-1`. -/
def sample_axis (nsample : Nat) : List ℚ :=
  (List.range nsample).map (fun (j : Nat) => -1 + 2 * (j : ℚ) / ((nsample : ℚ) - 1))

/-- The fixed grid of sample local coordinates in `d` dimensions. -/
def sample_coords (nsample : Nat) : Nat → List (List ℚ)
  | 0 => [[]]
  | d + 1 => ((sample_axis nsample).map
      (fun c => (sample_coords nsample d).map (fun r => c :: r))).flatten

/-- Every `(element, sample local coordinate)` pair of the mesh, element by
element. -/
def mesh_samples (mesh : Mesh) (nsample : Nat) : List (FiniteElement × List ℚ) :=
  (mesh.element_pt.map
    (fun el => (sample_coords nsample mesh.dim).map (fun s => (el, s)))).flatten

/-- Smallest entry of a list (zero for the empty list). -/
def list_min : List ℚ → ℚ
  | [] => 0
  | a :: as => as.foldl min a

/-- Largest entry of a list (zero for the empty list). -/
def list_max : List ℚ → ℚ
  | [] => 0
  | a :: as => as.foldl max a

namespace MeshAsGeomObject

/-- Modelled from the spec: `get_min_and_max_coordinates` is only declared in the
header.  By §4.2 the bounding box is computed by scanning every sample of the
mesh once: per axis the smallest and the largest physical coordinate. -/
def get_min_and_max_coordinates (m : MeshAsGeomObject) (mesh : Mesh) (nsample : Nat) :
    MeshAsGeomObject :=
  let pts := (mesh_samples mesh nsample).map (fun p => p.1.position 0 p.2)
  { m with
    Min_coords := (List.range m.nlagrangian).map
      (fun i => list_min (pts.map (fun x => x.getD i 0)))
    Max_coords := (List.range m.nlagrangian).map
      (fun i => list_max (pts.map (fun x => x.getD i 0))) }

/-- Insert one `(element, sample)` pair into the bin that contains the physical
position of the sample. -/
def add_to_bin (m : MeshAsGeomObject) (bins : List (List (FiniteElement × List ℚ)))
    (p : FiniteElement × List ℚ) : List (List (FiniteElement × List ℚ)) :=
  let b := m.bin_number (p.1.position 0 p.2)
  bins.set b (bins.getD b [] ++ [p])

/-- Modelled from the spec: `create_bins_of_objects` is only declared in the
header.  By §4.2 it allocates `Nbin_x*Nbin_y[*Nbin_z]` empty bins and inserts,
for each element and each sample of the fixed grid of local coordinates, the
pair into the bin containing the physical point of the sample. -/
def create_bins_of_objects (m : MeshAsGeomObject) (nsample : Nat) : MeshAsGeomObject :=
  let mesh : Mesh := { dim := m.nlagrangian, element_pt := m.Sub_geom_object_pt }
  { m with
    Bin_object_coord_pairs :=
      (mesh_samples mesh nsample).foldl m.add_to_bin (List.replicate m.grid.nbins []) }

/-- Modelled from the spec: `construct_it` is only declared in the header.  It
stores the elements of the mesh as sub-objects, computes the bounding box and
populates the bins (`build(mesh, bin_counts)` of §4.2). -/
def construct_it (mesh : Mesh) (nbin_x nbin_y nbin_z nsample : Nat) : MeshAsGeomObject :=
  let m0 : MeshAsGeomObject :=
    { NLagrangian := mesh.dim
      Geom_data_pt := []
      Sub_geom_object_pt := mesh.element_pt
      Bin_object_coord_pairs := []
      Min_coords := []
      Max_coords := []
      Nbin_x := nbin_x
      Nbin_y := nbin_y
      Nbin_z := nbin_z
      Current_min_spiral_level := 0
      Current_max_spiral_level := 0
      Communicator_pt := none }
  (m0.get_min_and_max_coordinates mesh nsample).create_bins_of_objects nsample

end MeshAsGeomObject

/-- A biquadratic quadrilateral whose upper and lower edges are curved:
`x = s0`, `y = s1 + s0/2 - 2 s0^2/5`.  Its inversion is exact. -/
def curved_element : FiniteElement where
  position := fun _ s => [s.getD 0 0, s.getD 1 0 + s.getD 0 0 / 2 - 2 * (s.getD 0 0) ^ 2 / 5]
  locate_zeta := fun x _ =>
    let s := [x.getD 0 0, x.getD 1 0 - x.getD 0 0 / 2 + 2 * (x.getD 0 0) ^ 2 / 5]
    if in_reference_region 0 s then some s else none

/-- A mesh made of the single curved element. -/
def curved_mesh : Mesh := { dim := 2, element_pt := [curved_element] }

/-- Modelled from the spec: the advection-diffusion source element.  Its
interpolation routines `interpolated_u_adv_diff` and
`dinterpolated_u_adv_diff_ddata` belong to the advection-diffusion library, which
is outside the available sources.  By the interface of §6 the producing element
returns, at a local coordinate, the list of (global unknown, interpolation
weight) pairs, and the interpolated temperature is the weighted sum of these
unknowns. -/
structure QAdvectionDiffusionElementWithExternalElement where
  du_adv_diff_ddata : List ℚ → List ℚ
  global_eqn_number : List ℚ → List Nat

namespace QAdvectionDiffusionElementWithExternalElement

/-- Output of `dinterpolated_u_adv_diff_ddata(s, du_ddata, global_eqn_number)`. -/
def dinterpolated_u_adv_diff_ddata (el : QAdvectionDiffusionElementWithExternalElement)
    (s : List ℚ) : List ℚ × List Nat :=
  (el.du_adv_diff_ddata s, el.global_eqn_number s)

/-- Temperature `interpolated_u_adv_diff(s)` for the values `dofs` of the global
unknowns: the sum of weight times unknown. -/
def interpolated_u_adv_diff (el : QAdvectionDiffusionElementWithExternalElement)
    (dofs : Nat → ℚ) (s : List ℚ) : ℚ :=
  (((el.du_adv_diff_ddata s).zip (el.global_eqn_number s)).map
    (fun p => p.1 * dofs p.2)).sum

end QAdvectionDiffusionElementWithExternalElement

/-- The Navier-Stokes element of the driver: the Rayleigh number `*Ra_pt`, the
gravity vector `g()`, and the interaction records of
`ElementWithExternalElement` (source element and local coordinate per
interaction and integration point). -/
structure QCrouzeixRaviartElementWithExternalElement (DIM : Nat) where
  Ra : ℚ
  G : List ℚ
  External_element_pt : Nat → Nat → QAdvectionDiffusionElementWithExternalElement
  External_element_local_coord : Nat → Nat → List ℚ

namespace QCrouzeixRaviartElementWithExternalElement

/-- Access function `ra()`. -/
def ra {DIM : Nat} (el : QCrouzeixRaviartElementWithExternalElement DIM) : ℚ := el.Ra

/-- Function `get_body_force_nst(time, ipt, s, x, result)` (lines 594-622); `dofs`
holds the current values of the global unknowns. -/
def get_body_force_nst {DIM : Nat} (el : QCrouzeixRaviartElementWithExternalElement DIM)
    (dofs : Nat → ℚ) (_time : ℚ) (ipt : Nat) (_s _x : List ℚ) : List ℚ :=
  let interaction := 0
  let source_el_pt := el.External_element_pt interaction ipt
  let gravity := el.G
  (List.range DIM).map (fun i =>
    -(gravity.getD i 0) * source_el_pt.interpolated_u_adv_diff dofs
      (el.External_element_local_coord interaction ipt) * el.ra)

/-- Function `get_dbody_force_nst_dexternal_element_data(ipt, result,
global_eqn_number)` (lines 629-668): the matrix `result`, row by row, and the
global equation numbers. -/
def get_dbody_force_nst_dexternal_element_data {DIM : Nat}
    (el : QCrouzeixRaviartElementWithExternalElement DIM) (ipt : Nat) :
    List (List ℚ) × List Nat :=
  let interaction := 0
  let source_el_pt := el.External_element_pt interaction ipt
  let gravity := el.G
  let d := source_el_pt.dinterpolated_u_adv_diff_ddata
    (el.External_element_local_coord interaction ipt)
  let du_adv_diff_ddata := d.1
  let n_external_element_data := du_adv_diff_ddata.length
  ((List.range DIM).map (fun i =>
      (List.range n_external_element_data).map (fun n =>
        -(gravity.getD i 0) * du_adv_diff_ddata.getD n 0 * el.ra)),
    d.2)

end QCrouzeixRaviartElementWithExternalElement

/-! ### The coupling state of the Boussinesq driver -/

/-- Coupling states of §4.5. -/
inductive CouplingState where
  | Unbuilt
  | Built
  | Stale
  deriving DecidableEq

/-- What a Newton solve sees: the coupling state and the mesh pair of the last
`set_sources`. -/
structure SolveRecord where
  coupling : CouplingState
  sources : Option (Nat × Nat)
  deriving DecidableEq

/-- The problem of the driver, as far as the coupling is concerned: the two
meshes (by identifier), the coupling state, the mesh pair passed to the last
`set_sources`, and the log of the Newton solves. -/
structure ConvectionProblem where
  Nst_mesh_pt : Nat
  Adv_diff_mesh_pt : Nat
  coupling : CouplingState
  sources : Option (Nat × Nat)
  solves : List SolveRecord
  deriving DecidableEq

/-- Events of the driver. -/
inductive DriverEvent where
  | construct
  | distribute
  | solve
  deriving DecidableEq

namespace ConvectionProblem

/-- Modelled from the spec: `Multi_domain_functions::set_sources` is outside the
available sources.  By §4.5 it (re)builds the interaction records for the given
mesh pair, which clears staleness. -/
def set_sources (p : ConvectionProblem) (mesh_a mesh_b : Nat) : ConvectionProblem :=
  { p with coupling := CouplingState.Built, sources := some (mesh_a, mesh_b) }

/-- Access function `nst_mesh_pt()`. -/
def nst_mesh_pt (p : ConvectionProblem) : Nat := p.Nst_mesh_pt

/-- Access function `adv_diff_mesh_pt()`. -/
def adv_diff_mesh_pt (p : ConvectionProblem) : Nat := p.Adv_diff_mesh_pt

/-- Function `actions_after_distribute()` (lines 781-797). -/
def actions_after_distribute (p : ConvectionProblem) : ConvectionProblem :=
  p.set_sources p.nst_mesh_pt p.adv_diff_mesh_pt

/-- A mesh mutation event: by §4.5 it makes the coupling stale. -/
def mesh_mutation (p : ConvectionProblem) : ConvectionProblem :=
  { p with coupling := CouplingState.Stale }

/-- Modelled from the spec: `Problem::distribute` is outside the available
sources.  It redistributes the meshes across the processes (a mesh mutation) and
then calls the hook `actions_after_distribute()`. -/
def distribute (p : ConvectionProblem) : ConvectionProblem :=
  p.mesh_mutation.actions_after_distribute

/-- The constructor (lines 900-1010): two new meshes are built, so nothing is
coupled yet, and the last coupling-related action is `set_sources` for the mesh
pair.  The log of solves is carried along. -/
def construct (nst_mesh adv_diff_mesh : Nat) (log : List SolveRecord) : ConvectionProblem :=
  let p : ConvectionProblem :=
    { Nst_mesh_pt := nst_mesh
      Adv_diff_mesh_pt := adv_diff_mesh
      coupling := CouplingState.Unbuilt
      sources := none
      solves := log }
  p.set_sources p.nst_mesh_pt p.adv_diff_mesh_pt

/-- A Newton solve (`steady_newton_solve` or `unsteady_newton_solve`): the
coupling it works with is recorded. -/
def newton_solve (p : ConvectionProblem) : ConvectionProblem :=
  { p with solves := p.solves ++ [{ coupling := p.coupling, sources := p.sources }] }

/-- One event of the driver. -/
def step (p : ConvectionProblem) : DriverEvent → ConvectionProblem
  | DriverEvent.construct => construct p.Nst_mesh_pt p.Adv_diff_mesh_pt p.solves
  | DriverEvent.distribute => p.distribute
  | DriverEvent.solve => p.newton_solve

/-- The state before the problem is constructed. -/
def unbuilt (nst_mesh adv_diff_mesh : Nat) : ConvectionProblem :=
  { Nst_mesh_pt := nst_mesh
    Adv_diff_mesh_pt := adv_diff_mesh
    coupling := CouplingState.Unbuilt
    sources := none
    solves := [] }

/-- Run a sequence of events. -/
def run (p : ConvectionProblem) (events : List DriverEvent) : ConvectionProblem :=
  events.foldl step p

/-- Events of `main` (lines 1138-1206): construct, distribute (with MPI only),
one steady solve, then `n_steps` unsteady solves, five when a command line
argument is given and two hundred otherwise. -/
def main_events (has_mpi : Bool) (argc : Nat) : List DriverEvent :=
  let n_steps := if 1 < argc then 5 else 200
  [DriverEvent.construct] ++ (if has_mpi then [DriverEvent.distribute] else [])
    ++ [DriverEvent.solve] ++ List.replicate n_steps DriverEvent.solve

/-- Invariant of the driver: the coupling is not stale, now and at every solve
taken so far. -/
def NeverStale (p : ConvectionProblem) : Prop :=
  p.coupling ≠ CouplingState.Stale ∧ ∀ r, r ∈ p.solves → r.coupling ≠ CouplingState.Stale

/-- Invariant of the driver once constructed: the coupling is built for the mesh
pair of the problem, now and at every solve taken so far. -/
def BuiltFor (nst adv : Nat) (p : ConvectionProblem) : Prop :=
  p.Nst_mesh_pt = nst ∧ p.Adv_diff_mesh_pt = adv ∧ p.coupling = CouplingState.Built ∧
    p.sources = some (nst, adv) ∧
    ∀ r, r ∈ p.solves → r = { coupling := CouplingState.Built, sources := some (nst, adv) }

end ConvectionProblem

/-! ### Sum of matrices -/

/-- Modelled from the spec: the matrix interface `DoubleMatrixBase` is outside
the available sources; a matrix is given by its dimensions and entries. -/
structure DoubleMatrixBase where
  nrow : Nat
  ncol : Nat
  entry : Nat → Nat → ℚ

/-- Matrix-vector product `multiply(x, soln)` of a single matrix. -/
def DoubleMatrixBase.multiply (A : DoubleMatrixBase) (x : List ℚ) : List ℚ :=
  (List.range A.nrow).map (fun i =>
    ((List.range A.ncol).map (fun j => A.entry i j * x.getD j 0)).sum)

/-- Data members of `SumOfMatrices` used by `multiply`; a numbering lookup is
given by its `main_to_added_mapping`, a `std::map` listed in iteration order. -/
structure SumOfMatrices where
  Main_matrix_pt : DoubleMatrixBase
  Added_matrix_pt : List DoubleMatrixBase
  Row_map_pts : List (List (Nat × Nat))
  Col_map_pts : List (List (Nat × Nat))

namespace SumOfMatrices

/-- Lines 53-61: pull the values of `x` into a temporary vector of the size of the
added matrix. -/
def pull_out (x : List ℚ) (col_map : List (Nat × Nat)) (n : Nat) : List ℚ :=
  col_map.foldl (fun temp_x it => temp_x.set it.2 (x.getD it.1 0)) (List.replicate n 0)

/-- Lines 66-73: add the result for one added matrix to the solution vector. -/
def add_result (soln temp_soln : List ℚ) (row_map : List (Nat × Nat)) : List ℚ :=
  row_map.foldl (fun sl it => sl.set it.1 (sl.getD it.1 0 + temp_soln.getD it.2 0)) soln

/-- Body of the loop over the added matrices (lines 25-74). -/
def add_contribution (x : List ℚ) (soln : List ℚ)
    (a : DoubleMatrixBase × List (Nat × Nat) × List (Nat × Nat)) : List ℚ :=
  let temp_x := pull_out x a.2.2 a.1.nrow
  let temp_soln := a.1.multiply temp_x
  add_result soln temp_soln a.2.1

/-- Function `SumOfMatrices::multiply(x, soln)` (lines 16-76). -/
def multiply (S : SumOfMatrices) (x : List ℚ) : List ℚ :=
  let soln := S.Main_matrix_pt.multiply x
  (S.Added_matrix_pt.zip (S.Row_map_pts.zip S.Col_map_pts)).foldl (add_contribution x) soln

/-- Entry `r` of the product of `x` with one added matrix placed in the main
numbering: the sum over the rows `r` of the row map and the columns `c` of the
column map of `A(R(r), C(c)) * x[c]`. -/
def added_term (x : List ℚ) (r : Nat)
    (a : DoubleMatrixBase × List (Nat × Nat) × List (Nat × Nat)) : ℚ :=
  ((a.2.1.filter (fun it => decide (it.1 = r))).map (fun itr =>
    (a.2.2.map (fun itc => a.1.entry itr.2 itc.2 * x.getD itc.1 0)).sum)).sum

/-- Well-formed added matrix with its maps: the matrix is square, the maps are
`std::map`s (distinct keys) into the numbering of the added matrix, the column
map is injective, and every index is in range. -/
structure WellFormed (main : DoubleMatrixBase) (x : List ℚ)
    (a : DoubleMatrixBase × List (Nat × Nat) × List (Nat × Nat)) : Prop where
  square : a.1.nrow = a.1.ncol
  row_keys : (a.2.1.map Prod.fst).Nodup
  row_inj : (a.2.1.map Prod.snd).Nodup
  row_range : ∀ it, it ∈ a.2.1 → it.1 < main.nrow ∧ it.2 < a.1.nrow
  col_keys : (a.2.2.map Prod.fst).Nodup
  col_inj : (a.2.2.map Prod.snd).Nodup
  col_range : ∀ it, it ∈ a.2.2 → it.1 < x.length ∧ it.2 < a.1.ncol

end SumOfMatrices

/-! ### One-dimensional Lagrange shape functions -/

namespace OneDimLagrange

/-- Functions `shape<NNODE_1D>(s, Psi)` (shape.h, lines 469-590): the
specialisations for two, three and four nodes; the general template throws. -/
def shape (NNODE_1D : Nat) (s : ℚ) : Except String (List ℚ) :=
  match NNODE_1D with
  | 2 => Except.ok [0.5 * (1.0 - s), 0.5 * (1.0 + s)]
  | 3 => Except.ok [0.5 * s * (s - 1.0), 1.0 - s * s, 0.5 * s * (s + 1.0)]
  | 4 =>
    let t1 := s * s
    let t2 := t1 * s
    let t3 := 0.5625 * t2
    let t4 := 0.5625 * t1
    let t5 := 0.625e-1 * s
    let t7 := 0.16875e1 * t2
    let t8 := 0.16875e1 * s
    Except.ok [-t3 + t4 + t5 - 0.625e-1, t7 - t4 - t8 + 0.5625, -t7 - t4 + t8 + 0.5625,
      t3 + t4 - t5 - 0.625e-1]
  | _ => Except.error "One dimensional Lagrange shape functions have not been defined"

/-- Local coordinate of node `j` of `NNODE_1D` equally spaced nodes on `[-1,1]`. -/
def node (NNODE_1D j : Nat) : ℚ := -1 + 2 * (j : ℚ) / ((NNODE_1D : ℚ) - 1)

end OneDimLagrange

/-! ### Concrete inputs -/

/-- A source element with two unknowns, numbers 3 and 7, and weights 1/4 and 3/4. -/
def sample_source_element : QAdvectionDiffusionElementWithExternalElement :=
  { du_adv_diff_ddata := fun _ => [1 / 4, 3 / 4]
    global_eqn_number := fun _ => [3, 7] }

/-- A two-dimensional Navier-Stokes element with the parameters of the driver:
Rayleigh number 1800 and gravity pointing down. -/
def sample_nst_element : QCrouzeixRaviartElementWithExternalElement 2 :=
  { Ra := 1800
    G := [0, -1]
    External_element_pt := fun _ _ => sample_source_element
    External_element_local_coord := fun _ _ => [0, 0] }

/-- The 3x3 identity plus a 2x2 matrix added at rows and columns 0 and 2. -/
def sample_sum : SumOfMatrices :=
  { Main_matrix_pt := { nrow := 3, ncol := 3, entry := fun i j => if i = j then 1 else 0 }
    Added_matrix_pt := [{ nrow := 2, ncol := 2, entry := fun i j => ((2 * i + j + 1 : Nat) : ℚ) }]
    Row_map_pts := [[(0, 0), (2, 1)]]
    Col_map_pts := [[(0, 0), (2, 1)]] }

/-! ### Derivatives of the one-dimensional Lagrange shape functions -/

namespace OneDimLagrange

/-- Functions `dshape<NNODE_1D>(s, DPsi)` (shape.h, lines 480-611): the
specialisations for two, three and four nodes; the general template throws. -/
def dshape (NNODE_1D : Nat) (s : ℚ) : Except String (List ℚ) :=
  match NNODE_1D with
  | 2 => Except.ok [-0.5, 0.5]
  | 3 => Except.ok [s - 0.5, -2.0 * s, s + 0.5]
  | 4 =>
    let t1 := s * s
    let t2 := 0.16875e1 * t1
    let t3 := 0.1125e1 * s
    let t5 := 0.50625e1 * t1
    Except.ok [-t2 + t3 + 0.625e-1, t5 - t3 - 0.16875e1, -t5 - t3 + 0.16875e1,
      t2 + t3 - 0.625e-1]
  | _ => Except.error "One dimensional Lagrange shape function derivatives have not been defined"

/-- Functions `d2shape<NNODE_1D>(s, DPsi)` (shape.h, lines 499-621): the
specialisations for two, three and four nodes; the general template throws. -/
def d2shape (NNODE_1D : Nat) (s : ℚ) : Except String (List ℚ) :=
  match NNODE_1D with
  | 2 => Except.ok [0.0, 0.0]
  | 3 => Except.ok [1.0, -2.0, 1.0]
  | 4 =>
    let t1 := 2.0 * s
    let t2 := 0.16875e1 * t1
    let t5 := 0.50625e1 * t1
    Except.ok [-t2 + 0.1125e1, t5 - 0.1125e1, -t5 - 0.1125e1, t2 + 0.1125e1]
  | _ =>
    Except.error "One dimensional Lagrange shape function second derivatives have not been defined"

end OneDimLagrange

/-! ### Refineable Crouzeix-Raviart elements: pressure transfer in the quadtree -/

/-- Modelled from the spec: the class `Data` is outside the available sources;
of its interface the pressure transfer uses `value(i)` and `set_value(i, v)`. -/
structure Data where
  value : Nat → ℚ

/-- Function `set_value(i, v)` of `Data`. -/
def Data.set_value (d : Data) (i : Nat) (v : ℚ) : Data :=
  { value := Function.update d.value i v }

/-- The son types of a quadtree used by the element (`QuadTreeNames`); `OMEGA`
stands for every other value of `son_type()`. -/
inductive SonType where
  | SW
  | SE
  | NW
  | NE
  | OMEGA
  deriving DecidableEq

/-- The two-dimensional `RefineableQCrouzeixRaviartElement`, as far as the
pressure is concerned: the internal `Data` at `P_nst_internal_index`. -/
structure RefineableQCrouzeixRaviartElement where
  P_nst_internal : Data

namespace RefineableQCrouzeixRaviartElement

/-- Modelled from the spec: `interpolated_p_nst` of `QCrouzeixRaviartElement<2>`
is outside the available sources.  The pressure of the element is the linear
field `p(s) = P0 + P1*s0 + P2*s1` in its three internal pressure values. -/
def interpolated_p_nst (el : RefineableQCrouzeixRaviartElement) (s : List ℚ) : ℚ :=
  el.P_nst_internal.value 0 + el.P_nst_internal.value 1 * s.getD 0 0
    + el.P_nst_internal.value 2 * s.getD 1 0

/-- Function `RefineableQCrouzeixRaviartElement<2>::further_build()` (lines
1054-1122) for a son of type `son_type` with the given father.  The generic
`RefineableNavierStokesEquations<2>::further_build()` called first only copies
pointers to physical parameters and does not touch the pressure. -/
def further_build (self : RefineableQCrouzeixRaviartElement) (son_type : SonType)
    (father : RefineableQCrouzeixRaviartElement) : RefineableQCrouzeixRaviartElement :=
  let s_father : List ℚ :=
    if son_type = SonType.SW then [-0.5, -0.5]
    else if son_type = SonType.SE then [0.5, -0.5]
    else if son_type = SonType.NE then [0.5, 0.5]
    else if son_type = SonType.NW then [-0.5, 0.5]
    else [0, 0]
  let press := father.interpolated_p_nst s_father
  let d0 := self.P_nst_internal.set_value 0 press
  let d1 := d0.set_value 1 (0.5 * father.P_nst_internal.value 1)
  let d2 := d1.set_value 2 (0.5 * father.P_nst_internal.value 2)
  { P_nst_internal := d2 }

/-- Function `RefineableQCrouzeixRaviartElement<2>::rebuild_from_sons` (lines
821-904); `son_pt` gives the element of each son, and the loop over the four
sons visits `SW`, `SE`, `NW`, `NE`. -/
def rebuild_from_sons (self : RefineableQCrouzeixRaviartElement)
    (son_pt : SonType → RefineableQCrouzeixRaviartElement) :
    RefineableQCrouzeixRaviartElement :=
  let av_press := [SonType.SW, SonType.SE, SonType.NW, SonType.NE].foldl
    (fun av ison => av + (son_pt ison).P_nst_internal.value 0) 0.0
  let d0 := self.P_nst_internal.set_value 0 (0.25 * av_press)
  let slope1 := (son_pt SonType.SE).P_nst_internal.value 0
    - (son_pt SonType.SW).P_nst_internal.value 0
  let slope2 := (son_pt SonType.NE).P_nst_internal.value 0
    - (son_pt SonType.NW).P_nst_internal.value 0
  let d1 := d0.set_value 1 (0.5 * (slope1 + slope2))
  let slope1 := (son_pt SonType.NE).P_nst_internal.value 0
    - (son_pt SonType.SE).P_nst_internal.value 0
  let slope2 := (son_pt SonType.NW).P_nst_internal.value 0
    - (son_pt SonType.SW).P_nst_internal.value 0
  let d2 := d1.set_value 2 (0.5 * (slope1 + slope2))
  { P_nst_internal := d2 }

end RefineableQCrouzeixRaviartElement

/-- A father element with pressure `1 + 2*s0 + 3*s1`. -/
def sample_father : RefineableQCrouzeixRaviartElement :=
  { P_nst_internal := { value := fun i => if i = 0 then 1 else if i = 1 then 2 else 3 } }

/-- A newly created son, all pressure values zero. -/
def fresh_son : RefineableQCrouzeixRaviartElement :=
  { P_nst_internal := { value := fun _ => 0 } }

/-! ### Refineable Taylor-Hood elements: pressure nodes -/

/-- Modelled from the spec: the class `Node` is outside the available sources.
The nodes of the mesh are addressed by their pointers; for the node behind
`nod_pt` and its stored value `i` the store records whether the value is pinned
(`is_pinned(i)`) and whether it is hanging (`is_hanging(i)`). -/
structure NodeStore where
  pinned : Nat → Nat → Bool
  hanging : Nat → Nat → Bool

/-- Function `pin(i)` on the node behind the pointer `nod_pt`. -/
def NodeStore.pin (st : NodeStore) (nod_pt i : Nat) : NodeStore :=
  { st with pinned := fun n v => if n = nod_pt ∧ v = i then true else st.pinned n v }

/-- Function `unpin(i)` on the node behind the pointer `nod_pt`. -/
def NodeStore.unpin (st : NodeStore) (nod_pt i : Nat) : NodeStore :=
  { st with pinned := fun n v => if n = nod_pt ∧ v = i then false else st.pinned n v }

/-- Function `is_hanging(i)` on the node behind the pointer `nod_pt`. -/
def NodeStore.is_hanging (st : NodeStore) (nod_pt i : Nat) : Bool := st.hanging nod_pt i

/-- The `RefineableQTaylorHoodElement<DIM>`: its node pointers, and what the
base class `QTaylorHoodElement<DIM>` (outside the available sources) provides:
the table `Pconv` of the local numbers of the pressure nodes, `npres_nst()` and
`p_nodal_index_nst()`. -/
structure RefineableQTaylorHoodElement where
  DIM : Nat
  Node_pt : List Nat
  Pconv : List Nat
  Npres_nst : Nat
  P_nodal_index_nst : Nat

/-- Conversion `int(x)` of a `double`: truncation towards zero. -/
def int_of_double (x : ℚ) : Int := if 0 ≤ x then Rat.floor x else -Rat.floor (-x)

namespace RefineableQTaylorHoodElement

/-- Function `nnode()`. -/
def nnode (el : RefineableQTaylorHoodElement) : Nat := el.Node_pt.length

/-- Function `node_pt(n)`. -/
def node_pt (el : RefineableQTaylorHoodElement) (n : Nat) : Nat := el.Node_pt.getD n 0

/-- Function `npres_nst()`. -/
def npres_nst (el : RefineableQTaylorHoodElement) : Nat := el.Npres_nst

/-- Function `p_nodal_index_nst()`. -/
def p_nodal_index_nst (el : RefineableQTaylorHoodElement) : Nat := el.P_nodal_index_nst

/-- Function `pressure_node_pt(n_p)` (lines 234-236). -/
def pressure_node_pt (el : RefineableQTaylorHoodElement) (n_p : Nat) : Nat :=
  el.node_pt (el.Pconv.getD n_p 0)

/-- Function `pin_elemental_redundant_nodal_pressure_dofs()` (lines 249-266). -/
def pin_elemental_redundant_nodal_pressure_dofs (el : RefineableQTaylorHoodElement)
    (st : NodeStore) : NodeStore :=
  let p_index := el.p_nodal_index_nst
  let n_node := el.nnode
  let st1 := (List.range n_node).foldl (fun acc n => acc.pin (el.node_pt n) p_index) st
  let n_pres := el.npres_nst
  (List.range n_pres).foldl
    (fun acc l =>
      let nod_pt := el.pressure_node_pt l
      if !(acc.is_hanging nod_pt p_index) then acc.unpin nod_pt p_index else acc)
    st1

/-- Function `RefineableNavierStokesEquations::pin_redundant_nodal_pressures`
(lines 81-102), for a vector of refineable Taylor-Hood elements. -/
def pin_redundant_nodal_pressures (element_pt : List RefineableQTaylorHoodElement)
    (st : NodeStore) : NodeStore :=
  element_pt.foldl (fun acc el => el.pin_elemental_redundant_nodal_pressure_dofs acc) st

/-- Is the node behind `nod_pt` one of the nodes `node_pt(n)`, `n < nnode()`, of
the element? -/
abbrev has_node (el : RefineableQTaylorHoodElement) (nod_pt : Nat) : Prop :=
  nod_pt ∈ (List.range el.nnode).map el.node_pt

/-- Is the node behind `nod_pt` one of the pressure nodes `pressure_node_pt(l)`,
`l < npres_nst()`, of the element? -/
abbrev has_pressure_node (el : RefineableQTaylorHoodElement) (nod_pt : Nat) : Prop :=
  nod_pt ∈ (List.range el.npres_nst).map el.pressure_node_pt

/-- Body of the loop over the coordinates in
`get_interpolating_node_at_local_coordinate` (lines 406-437) for one coordinate
`s[i]`: the index along the direction, or nothing when the function returns
null. -/
def pressure_index_1d (Node_location_tolerance : ℚ) (s_i : ℚ) : Option Int :=
  let NNODE_1D : Nat := 2
  if s_i = -1.0 then some 0
  else if s_i = 1.0 then some ((NNODE_1D : Int) - 1)
  else
    let float_index := 0.5 * (1.0 + s_i) * ((NNODE_1D : ℚ) - 1)
    let index := int_of_double float_index
    let excess := float_index - (index : ℚ)
    if excess > Node_location_tolerance ∧ (1.0 - excess) > Node_location_tolerance then none
    else some index

/-- The loop over the coordinates (lines 404-441), started at coordinate `i` with
`total_index` accumulated so far in unsigned arithmetic. -/
def pressure_index_loop (Node_location_tolerance : ℚ) (s : List ℚ) :
    List Nat → Nat → Option Nat
  | [], total_index => some total_index
  | i :: rest, total_index =>
    match pressure_index_1d Node_location_tolerance (s.getD i 0) with
    | none => none
    | some index =>
      pressure_index_loop Node_location_tolerance s rest
        ((((total_index : Int) + index * (2 : Int) ^ i) % (2 : Int) ^ 32).toNat)

/-- Function `get_interpolating_node_at_local_coordinate(s, value_id)` (lines
392-451).  The tolerance `FiniteElement::Node_location_tolerance` and the
function `get_node_at_local_coordinate` of the geometric element are outside the
available sources and are passed in. -/
def get_interpolating_node_at_local_coordinate (el : RefineableQTaylorHoodElement)
    (Node_location_tolerance : ℚ) (get_node_at_local_coordinate : List ℚ → Option Nat)
    (s : List ℚ) (value_id : Int) : Option Nat :=
  if value_id = (el.DIM : Int) then
    match pressure_index_loop Node_location_tolerance s (List.range el.DIM) 0 with
    | none => none
    | some total_index => some (el.pressure_node_pt total_index)
  else get_node_at_local_coordinate s

end RefineableQTaylorHoodElement

/-- A two-dimensional Taylor-Hood element with nodes 0 to 8; the pressure nodes
are the corners, local nodes 0, 2, 6, 8. -/
def big_element : RefineableQTaylorHoodElement :=
  { DIM := 2
    Node_pt := [0, 1, 2, 3, 4, 5, 6, 7, 8]
    Pconv := [0, 2, 6, 8]
    Npres_nst := 4
    P_nodal_index_nst := 2 }

/-- A refined neighbour of `big_element` on its right: the lower left corner is
node 5, the middle node of the right edge of `big_element`, and the upper left
corner is node 8. -/
def small_element : RefineableQTaylorHoodElement :=
  { DIM := 2
    Node_pt := [5, 9, 10, 11, 12, 13, 8, 14, 15]
    Pconv := [0, 2, 6, 8]
    Npres_nst := 4
    P_nodal_index_nst := 2 }

/-- A right neighbour of `big_element` of the same size: it shares the nodes 2, 5
and 8 of the common edge. -/
def neighbour_element : RefineableQTaylorHoodElement :=
  { DIM := 2
    Node_pt := [2, 16, 17, 5, 18, 19, 8, 20, 21]
    Pconv := [0, 2, 6, 8]
    Npres_nst := 4
    P_nodal_index_nst := 2 }

/-- Nodes before any pinning and before hanging nodes are set up: nothing is
pinned and nothing is hanging. -/
def free_nodes : NodeStore := { pinned := fun _ _ => false, hanging := fun _ _ => false }

/-! ### Double arithmetic for the pressure transfer -/

/-- The integer `e` with `2^e ≤ a < 2^(e+1)` for a positive `a`, found by halving
or doubling at most `fuel` times; `e` counts the steps done so far. -/
def binary_exponent : Nat → ℚ → Int → Int
  | 0, _, e => e
  | fuel + 1, a, e =>
    if 2 ≤ a then binary_exponent fuel (a / 2) (e + 1)
    else if a < 1 then binary_exponent fuel (a * 2) (e - 1)
    else e

/-- Rounding to the nearest integer, ties to the even one. -/
def round_half_even (x : ℚ) : Int :=
  let f := Rat.floor x
  let d := x - (f : ℚ)
  if d < 1 / 2 then f else if 1 / 2 < d then f + 1 else if f % 2 = 0 then f else f + 1

/-- The `double` that an arithmetic operation with exact result `x` returns: `x`
rounded to 53 significant bits, to nearest, ties to even (IEEE 754 binary64;
overflow and subnormal numbers are not modelled). -/
def round_to_double (x : ℚ) : ℚ :=
  if x = 0 then 0
  else
    let e := binary_exponent 1100 |x| 0
    let ulp : ℚ := (2 : ℚ) ^ (e - 52)
    (round_half_even (x / ulp) : ℚ) * ulp

namespace RefineableQCrouzeixRaviartElement

/-- Modelled from the spec: `interpolated_p_nst` of `QCrouzeixRaviartElement<2>`
is outside the available sources.  The sum `P0 + P1*s0 + P2*s1` of
`interpolated_p_nst`, accumulated from left to right, with the result of every
operation passed through the rounding `fl` of the arithmetic. -/
def interpolated_p_nst_fl (fl : ℚ → ℚ) (el : RefineableQCrouzeixRaviartElement)
    (s : List ℚ) : ℚ :=
  fl (fl (el.P_nst_internal.value 0 + fl (el.P_nst_internal.value 1 * s.getD 0 0))
    + fl (el.P_nst_internal.value 2 * s.getD 1 0))

/-- Function `further_build()` (lines 1054-1122) with the result of every
arithmetic operation passed through the rounding `fl`; `fl = round_to_double` is
the arithmetic of the program, `fl = id` is exact arithmetic. -/
def further_build_fl (fl : ℚ → ℚ) (self : RefineableQCrouzeixRaviartElement)
    (son_type : SonType) (father : RefineableQCrouzeixRaviartElement) :
    RefineableQCrouzeixRaviartElement :=
  let s_father : List ℚ :=
    if son_type = SonType.SW then [-0.5, -0.5]
    else if son_type = SonType.SE then [0.5, -0.5]
    else if son_type = SonType.NE then [0.5, 0.5]
    else if son_type = SonType.NW then [-0.5, 0.5]
    else [0, 0]
  let press := father.interpolated_p_nst_fl fl s_father
  let d0 := self.P_nst_internal.set_value 0 press
  let d1 := d0.set_value 1 (fl (0.5 * father.P_nst_internal.value 1))
  let d2 := d1.set_value 2 (fl (0.5 * father.P_nst_internal.value 2))
  { P_nst_internal := d2 }

/-- Function `rebuild_from_sons` (lines 821-904) with the result of every
arithmetic operation passed through the rounding `fl`. -/
def rebuild_from_sons_fl (fl : ℚ → ℚ) (self : RefineableQCrouzeixRaviartElement)
    (son_pt : SonType → RefineableQCrouzeixRaviartElement) :
    RefineableQCrouzeixRaviartElement :=
  let av_press := [SonType.SW, SonType.SE, SonType.NW, SonType.NE].foldl
    (fun av ison => fl (av + (son_pt ison).P_nst_internal.value 0)) 0.0
  let d0 := self.P_nst_internal.set_value 0 (fl (0.25 * av_press))
  let slope1 := fl ((son_pt SonType.SE).P_nst_internal.value 0
    - (son_pt SonType.SW).P_nst_internal.value 0)
  let slope2 := fl ((son_pt SonType.NE).P_nst_internal.value 0
    - (son_pt SonType.NW).P_nst_internal.value 0)
  let d1 := d0.set_value 1 (fl (0.5 * fl (slope1 + slope2)))
  let slope1 := fl ((son_pt SonType.NE).P_nst_internal.value 0
    - (son_pt SonType.SE).P_nst_internal.value 0)
  let slope2 := fl ((son_pt SonType.NW).P_nst_internal.value 0
    - (son_pt SonType.SW).P_nst_internal.value 0)
  let d2 := d1.set_value 2 (fl (0.5 * fl (slope1 + slope2)))
  { P_nst_internal := d2 }

/-- The coefficient triples `(a, b, c)` of the values `a*P0 + b*P1/2 + c*P2/2`
that `further_build` on the four sons and `rebuild_from_sons` compute from the
father's pressure values `(P0, P1, P2)`. -/
def computed_combinations : List (Int × Int × Int) :=
  [(0, 1, 0), (0, -1, 0), (0, 0, 1), (0, 0, -1), (1, 1, 0), (1, -1, 0),
    (1, -1, -1), (1, 1, -1), (1, -1, 1), (1, 1, 1),
    (2, 0, -2), (3, -1, -1), (4, 0, 0), (1, 0, 0),
    (0, 2, 0), (0, 4, 0), (0, 0, 2), (0, 0, 4)]

/-- The value `a*P0 + b*P1/2 + c*P2/2` for the father's pressure values. -/
def combination (father : RefineableQCrouzeixRaviartElement) (t : Int × Int × Int) : ℚ :=
  (t.1 : ℚ) * father.P_nst_internal.value 0
    + (t.2.1 : ℚ) * (father.P_nst_internal.value 1 / 2)
    + (t.2.2 : ℚ) * (father.P_nst_internal.value 2 / 2)

end RefineableQCrouzeixRaviartElement

/-- A father whose pressure values `(2^53, 1, 1)` are doubles. -/
def large_father : RefineableQCrouzeixRaviartElement :=
  { P_nst_internal := { value := fun i => if i = 0 then 2 ^ 53 else 1 } }

/-- A father whose pressure values are the doubles written `0.1`, `0.2`, `0.3`. -/
def decimal_father : RefineableQCrouzeixRaviartElement :=
  { P_nst_internal := { value := fun i =>
      if i = 0 then round_to_double (1 / 10) else if i = 1 then round_to_double (2 / 10)
      else round_to_double (3 / 10) } }

/-! ## Theorems -/

/-! ### The grid of bins -/

namespace BinGrid

theorem decode_encode (g : BinGrid) (i j k : Nat) (hi : i < g.nx) (hj : j < g.ny) :
    g.decode (g.encode i j k) = (i, j, k) := by
  have hx : 0 < g.nx := by omega
  have hy : 0 < g.ny := by omega
  have h1 : (i + g.nx * (j + g.ny * k)) % g.nx = i := by
    rw [Nat.add_mul_mod_self_left, Nat.mod_eq_of_lt hi]
  have h2 : (i + g.nx * (j + g.ny * k)) / g.nx = j + g.ny * k := by
    rw [Nat.add_mul_div_left _ _ hx, Nat.div_eq_of_lt hi, Nat.zero_add]
  have h3 : (j + g.ny * k) % g.ny = j := by
    rw [Nat.add_mul_mod_self_left, Nat.mod_eq_of_lt hj]
  have h4 : (i + g.nx * (j + g.ny * k)) / (g.nx * g.ny) = k := by
    rw [← Nat.div_div_eq_div_mul, h2, Nat.add_mul_div_left _ _ hy, Nat.div_eq_of_lt hj,
      Nat.zero_add]
  simp only [decode, encode, h1, h2, h3, h4]

theorem encode_lt (g : BinGrid) (i j k : Nat) (hi : i < g.nx) (hj : j < g.ny)
    (hk : k < g.nz) : g.encode i j k < g.nbins := by
  unfold encode nbins
  have h1 : j + g.ny * k + 1 ≤ g.ny * g.nz := by
    have : g.ny * (k + 1) ≤ g.ny * g.nz := Nat.mul_le_mul_left _ hk
    rw [Nat.mul_add, Nat.mul_one] at this
    omega
  have h2 : g.nx * (j + g.ny * k + 1) ≤ g.nx * (g.ny * g.nz) := Nat.mul_le_mul_left _ h1
  rw [Nat.mul_add, Nat.mul_one] at h2
  rw [Nat.mul_assoc]
  omega

theorem decode_lt (g : BinGrid) (b : Nat) (hb : b < g.nbins) :
    (g.decode b).1 < g.nx ∧ (g.decode b).2.1 < g.ny ∧ (g.decode b).2.2 < g.nz := by
  unfold nbins at hb
  have hx : 0 < g.nx := by
    rcases Nat.eq_zero_or_pos g.nx with h | h
    · rw [h] at hb; simp at hb
    · exact h
  have hy : 0 < g.ny := by
    rcases Nat.eq_zero_or_pos g.ny with h | h
    · rw [h] at hb; simp at hb
    · exact h
  refine ⟨Nat.mod_lt _ hx, Nat.mod_lt _ hy, ?_⟩
  show b / (g.nx * g.ny) < g.nz
  exact Nat.div_lt_of_lt_mul hb

theorem encode_decode (g : BinGrid) (b : Nat) :
    g.encode (g.decode b).1 (g.decode b).2.1 (g.decode b).2.2 = b := by
  show b % g.nx + g.nx * ((b / g.nx) % g.ny + g.ny * (b / (g.nx * g.ny))) = b
  rw [← Nat.div_div_eq_div_mul, Nat.mod_add_div, Nat.mod_add_div]

theorem mem_offsets (k : Nat) (d : ℤ) : d ∈ offsets k ↔ d.natAbs ≤ k := by
  unfold offsets
  simp only [List.mem_map, List.mem_range]
  constructor
  · rintro ⟨n, hn, rfl⟩
    omega
  · intro h
    refine ⟨(d + k).toNat, ?_, ?_⟩ <;> omega

theorem nodup_offsets (k : Nat) : (offsets k).Nodup := by
  unfold offsets
  refine List.Nodup.map ?_ (List.nodup_range _)
  intro a b hab
  simp only at hab
  omega

theorem mem_shell (k : Nat) (d : ℤ × ℤ × ℤ) :
    d ∈ shell k ↔ max d.1.natAbs (max d.2.1.natAbs d.2.2.natAbs) = k := by
  obtain ⟨d1, d2, d3⟩ := d
  unfold shell
  simp only [List.mem_filter, List.pair_mem_product, mem_offsets, decide_eq_true_eq]
  constructor
  · rintro ⟨_, h⟩
    exact h
  · intro h
    refine ⟨⟨?_, ?_, ?_⟩, h⟩ <;> omega

theorem nodup_shell (k : Nat) : (shell k).Nodup := by
  unfold shell
  exact ((nodup_offsets k).product ((nodup_offsets k).product (nodup_offsets k))).filter _

theorem inside_iff (g : BinGrid) (c : ℤ × ℤ × ℤ) :
    g.inside c = true ↔
      (0 ≤ c.1 ∧ c.1 < g.nx) ∧ (0 ≤ c.2.1 ∧ c.2.1 < g.ny) ∧ (0 ≤ c.2.2 ∧ c.2.2 < g.nz) := by
  unfold inside
  simp only [Bool.and_eq_true, decide_eq_true_eq]
  tauto

/-- Membership in the list of neighbouring bins. -/
theorem mem_get_neighbouring_bins_helper (g : BinGrid) (bin k b : Nat) :
    b ∈ g.get_neighbouring_bins_helper bin k ↔
      b < g.nbins ∧ chebyshev (g.decode b) (g.decode bin) = k := by
  unfold get_neighbouring_bins_helper
  simp only [List.mem_map, List.mem_filter, mem_shell, inside_iff]
  constructor
  · rintro ⟨c, ⟨⟨d, hd, rfl⟩, ⟨h1, h1'⟩, ⟨h2, h2'⟩, ⟨h3, h3'⟩⟩, rfl⟩
    simp only at h1 h1' h2 h2' h3 h3' ⊢
    have e1 : ((g.decode bin).1 : ℤ) + d.1 < g.nx := h1'
    refine ⟨encode_lt _ _ _ _ (by omega) (by omega) (by omega), ?_⟩
    rw [decode_encode _ _ _ _ (by omega) (by omega)]
    unfold chebyshev
    simp only
    rw [← hd]
    congr 1
    · omega
    · congr 1 <;> omega
  · rintro ⟨hb, hk⟩
    obtain ⟨l1, l2, l3⟩ := decode_lt g b hb
    refine ⟨(((g.decode b).1 : ℤ), ((g.decode b).2.1 : ℤ), ((g.decode b).2.2 : ℤ)),
      ⟨⟨(((g.decode b).1 : ℤ) - (g.decode bin).1, ((g.decode b).2.1 : ℤ) - (g.decode bin).2.1,
          ((g.decode b).2.2 : ℤ) - (g.decode bin).2.2), ?_, ?_⟩, ?_⟩, ?_⟩
    · exact hk
    · simp
    · simp only
      omega
    · simp only [Int.toNat_ofNat]
      exact encode_decode g b

theorem nodup_get_neighbouring_bins_helper (g : BinGrid) (bin k : Nat) :
    (g.get_neighbouring_bins_helper bin k).Nodup := by
  unfold get_neighbouring_bins_helper
  refine List.Nodup.map_on ?_ (List.Nodup.filter _ (List.Nodup.map ?_ (nodup_shell k)))
  · intro c hc c' hc' h
    simp only [List.mem_filter, inside_iff] at hc hc'
    obtain ⟨_, ⟨a1, a2⟩, ⟨a3, a4⟩, ⟨a5, a6⟩⟩ := hc
    obtain ⟨_, ⟨b1, b2⟩, ⟨b3, b4⟩, ⟨b5, b6⟩⟩ := hc'
    have e := congrArg g.decode h
    rw [decode_encode _ _ _ _ (by omega) (by omega),
      decode_encode _ _ _ _ (by omega) (by omega)] at e
    simp only [Prod.mk.injEq] at e
    obtain ⟨e1, e2, e3⟩ := e
    obtain ⟨c1, c2, c3⟩ := c
    obtain ⟨c1', c2', c3'⟩ := c'
    simp only at a1 a3 a5 b1 b3 b5 e1 e2 e3
    simp only [Prod.mk.injEq]
    omega
  · intro d d' h
    obtain ⟨d1, d2, d3⟩ := d
    obtain ⟨d1', d2', d3'⟩ := d'
    simp only [Prod.mk.injEq] at h ⊢
    omega

/-- C3: for every bin and every level `k` the list returned by
`get_neighbouring_bins_helper` holds exactly the bins inside the grid whose
grid-index Chebyshev distance from `bin` is `k` (so a candidate beyond an edge
is dropped and never wrapped to the opposite side), and no bin is listed
twice. -/
theorem get_neighbouring_bins_helper_is_ring (g : BinGrid) (bin k : Nat) :
    (∀ b, b ∈ g.get_neighbouring_bins_helper bin k ↔
      b < g.nbins ∧ chebyshev (g.decode b) (g.decode bin) = k) ∧
    (g.get_neighbouring_bins_helper bin k).Nodup :=
  ⟨mem_get_neighbouring_bins_helper g bin k, nodup_get_neighbouring_bins_helper g bin k⟩

end BinGrid

/-! ### Point location -/

theorem outside_box_iff (n : Nat) (lo hi : List ℚ) (margin : ℚ) (zeta : List ℚ) :
    outside_box n lo hi margin zeta = true ↔
      ∃ i, i < n ∧ (zeta.getD i 0 < lo.getD i 0 - margin ∨ hi.getD i 0 + margin < zeta.getD i 0) := by
  unfold outside_box
  simp only [List.any_eq_true, List.mem_range, Bool.or_eq_true, decide_eq_true_eq]

theorem sample_coords_ne_nil (nsample : Nat) (h : 0 < nsample) :
    ∀ d, ∃ s, s ∈ sample_coords nsample d := by
  intro d
  induction d with
  | zero => exact ⟨[], by simp [sample_coords]⟩
  | succ d ih =>
    obtain ⟨r, hr⟩ := ih
    refine ⟨(-1 + 2 * ((0 : Nat) : ℚ) / ((nsample : ℚ) - 1)) :: r, ?_⟩
    unfold sample_coords
    simp only [List.mem_flatten, List.mem_map]
    refine ⟨_, ⟨(-1 + 2 * ((0 : Nat) : ℚ) / ((nsample : ℚ) - 1)), ?_, rfl⟩, ?_⟩
    · unfold sample_axis
      simp only [List.mem_map, List.mem_range]
      exact ⟨0, h, rfl⟩
    · simp only [List.mem_map]
      exact ⟨r, hr, rfl⟩

theorem getD_of_in_reference_region (overshoot : ℚ) (h0 : 0 ≤ overshoot) (s : List ℚ)
    (h : in_reference_region overshoot s = true) (i : Nat) :
    -1 - overshoot ≤ s.getD i 0 ∧ s.getD i 0 ≤ 1 + overshoot := by
  unfold in_reference_region at h
  simp only [List.all_eq_true, Bool.and_eq_true, decide_eq_true_eq] at h
  rw [List.getD_eq_getElem?_getD]
  cases hi : s[i]? with
  | none =>
    simp only [Option.getD_none]
    constructor <;> linarith
  | some c =>
    simp only [Option.getD_some]
    exact h c (List.getElem?_mem hi)

namespace MeshAsGeomObject

theorem length_add_to_bin (m : MeshAsGeomObject) (bins : List (List (FiniteElement × List ℚ)))
    (p : FiniteElement × List ℚ) : (m.add_to_bin bins p).length = bins.length := by
  simp [add_to_bin]

theorem mem_add_to_bin_inv (m : MeshAsGeomObject)
    (bins : List (List (FiniteElement × List ℚ))) (p q : FiniteElement × List ℚ) (c : Nat)
    (h : q ∈ (m.add_to_bin bins p).getD c []) : q ∈ bins.getD c [] ∨ q = p := by
  unfold add_to_bin at h
  simp only [List.getD_eq_getElem?_getD, List.getElem?_set] at h ⊢
  by_cases hbc : m.bin_number (p.1.position 0 p.2) = c
  · rw [if_pos hbc] at h
    subst hbc
    by_cases hlt : m.bin_number (p.1.position 0 p.2) < bins.length
    · rw [if_pos hlt] at h
      simp only [Option.getD_some, List.mem_append, List.mem_singleton] at h
      exact h
    · rw [if_neg hlt] at h
      simp at h
  · rw [if_neg hbc] at h
    exact Or.inl h

theorem length_foldl_add_to_bin (m : MeshAsGeomObject) (l : List (FiniteElement × List ℚ)) :
    ∀ bins, (l.foldl m.add_to_bin bins).length = bins.length := by
  induction l with
  | nil => intro bins; rfl
  | cons p rest ih =>
    intro bins
    rw [List.foldl_cons, ih, length_add_to_bin]

theorem mem_foldl_add_to_bin_inv (m : MeshAsGeomObject) (l : List (FiniteElement × List ℚ))
    (q : FiniteElement × List ℚ) (c : Nat) :
    ∀ bins, q ∈ (l.foldl m.add_to_bin bins).getD c [] → q ∈ bins.getD c [] ∨ q ∈ l := by
  induction l with
  | nil => intro bins h; exact Or.inl h
  | cons p rest ih =>
    intro bins h
    rw [List.foldl_cons] at h
    rcases ih _ h with h1 | h1
    · rcases mem_add_to_bin_inv m bins p q c h1 with h2 | h2
      · exact Or.inl h2
      · exact Or.inr (by rw [h2]; exact List.mem_cons_self _ _)
    · exact Or.inr (List.mem_cons_of_mem _ h1)

theorem mem_mesh_samples (mesh : Mesh) (nsample : Nat) (p : FiniteElement × List ℚ) :
    p ∈ mesh_samples mesh nsample ↔
      p.1 ∈ mesh.element_pt ∧ p.2 ∈ sample_coords nsample mesh.dim := by
  unfold mesh_samples
  simp only [List.mem_flatten, List.mem_map]
  constructor
  · rintro ⟨l, ⟨el, hel, rfl⟩, hp⟩
    simp only [List.mem_map] at hp
    obtain ⟨s, hs, rfl⟩ := hp
    exact ⟨hel, hs⟩
  · rintro ⟨h1, h2⟩
    refine ⟨_, ⟨p.1, h1, rfl⟩, ?_⟩
    simp only [List.mem_map]
    exact ⟨p.2, h2, rfl⟩

theorem candidate_from_mesh (m1 : MeshAsGeomObject) (nsample : Nat) (q : FiniteElement × List ℚ)
    (c : Nat) (h : q ∈ (m1.create_bins_of_objects nsample).Bin_object_coord_pairs.getD c []) :
    q.1 ∈ m1.Sub_geom_object_pt := by
  rcases mem_foldl_add_to_bin_inv m1 _ q c _ h with h1 | h1
  · simp only [List.getD_eq_getElem?_getD, List.getElem?_replicate] at h1
    split at h1 <;> simp at h1
  · exact ((mem_mesh_samples _ _ _).1 h1).1

theorem ring_candidate_from_mesh (m1 : MeshAsGeomObject) (nsample : Nat)
    (q : FiniteElement × List ℚ) (levels : List Nat) (bin : Nat)
    (h : q ∈ (levels.map
      (fun l => (m1.create_bins_of_objects nsample).ring_candidates bin l)).flatten) :
    q.1 ∈ m1.Sub_geom_object_pt := by
  simp only [List.mem_flatten, List.mem_map] at h
  obtain ⟨_, ⟨l, _, rfl⟩, h⟩ := h
  unfold ring_candidates at h
  simp only [List.mem_flatten, List.mem_map] at h
  obtain ⟨_, ⟨c, _, rfl⟩, h⟩ := h
  exact candidate_from_mesh m1 nsample q c h

theorem spiraling_locate_zeta_outside_box (m : MeshAsGeomObject) (cfg : LocateConfig)
    (zeta s : List ℚ) (spiral : Bool)
    (h : outside_box m.nlagrangian m.Min_coords m.Max_coords cfg.margin zeta = true) :
    m.spiraling_locate_zeta cfg zeta s spiral = { sub_geom_object_pt := none, s := s } := by
  simp only [spiraling_locate_zeta, h, if_true]

/-- C2: a query point that lies outside the bounding box `[Min_coords,
Max_coords]` by more than the configured margin, in at least one direction, is
reported as not found: `locate_zeta` returns with a null sub-object pointer
(the function is total, no error is raised). -/
theorem locate_zeta_outside_bounding_box (paranoid flag : Bool) (m : MeshAsGeomObject)
    (cfg : LocateConfig) (zeta s : List ℚ)
    (h : ∃ i, i < m.nlagrangian ∧
      (zeta.getD i 0 < m.Min_coords.getD i 0 - cfg.margin ∨
        m.Max_coords.getD i 0 + cfg.margin < zeta.getD i 0)) :
    (m.locate_zeta paranoid cfg zeta s flag).2.sub_geom_object_pt = none := by
  have hout := (outside_box_iff m.nlagrangian m.Min_coords m.Max_coords cfg.margin zeta).2 h
  show (m.spiraling_locate_zeta cfg zeta s false).sub_geom_object_pt = none
  rw [spiraling_locate_zeta_outside_box m cfg zeta s false hout]

/-- C2 (witness): a point to the right of the bounding box of the curved mesh. -/
theorem locate_zeta_outside_bounding_box_witness :
    ((construct_it curved_mesh 2 2 1 3).locate_zeta false { margin := 1 / 10, overshoot := 0 }
      [2, 0] [0, 0] false).2.sub_geom_object_pt = none :=
  locate_zeta_outside_bounding_box false false (construct_it curved_mesh 2 2 1 3)
    { margin := 1 / 10, overshoot := 0 } [2, 0] [0, 0] ⟨0, by decide, Or.inr (by decide!)⟩

/-- C4: `flush_bins_of_objects` leaves no `(element, local coordinate)` pair in
the bin storage and changes no other data member. -/
theorem flush_bins_of_objects_frame (m : MeshAsGeomObject) :
    m.flush_bins_of_objects.Bin_object_coord_pairs = [] ∧
    (∀ p, p ∉ m.flush_bins_of_objects.Bin_object_coord_pairs.flatten) ∧
    m.flush_bins_of_objects.Min_coords = m.Min_coords ∧
    m.flush_bins_of_objects.Max_coords = m.Max_coords ∧
    m.flush_bins_of_objects.Nbin_x = m.Nbin_x ∧
    m.flush_bins_of_objects.Nbin_y = m.Nbin_y ∧
    m.flush_bins_of_objects.Nbin_z = m.Nbin_z ∧
    m.flush_bins_of_objects.Current_min_spiral_level = m.Current_min_spiral_level ∧
    m.flush_bins_of_objects.Current_max_spiral_level = m.Current_max_spiral_level ∧
    m.flush_bins_of_objects.Sub_geom_object_pt = m.Sub_geom_object_pt ∧
    m.flush_bins_of_objects.Geom_data_pt = m.Geom_data_pt ∧
    m.flush_bins_of_objects.NLagrangian = m.NLagrangian ∧
    m.flush_bins_of_objects.Communicator_pt = m.Communicator_pt := by
  refine ⟨rfl, ?_, rfl, rfl, rfl, rfl, rfl, rfl, rfl, rfl, rfl, rfl, rfl⟩
  intro p hp
  simp [flush_bins_of_objects] at hp

/-- C5: `position(t, zeta, r)` throws exactly when `locate_zeta` reports no
containing sub-object; otherwise it returns the located sub-object's
`position(t, s)` at the located local coordinate; and `position(zeta, r)` is
`position(0, zeta, r)`. -/
theorem position_throws_iff_not_located (paranoid : Bool) (m : MeshAsGeomObject)
    (cfg : LocateConfig) (t : Nat) (zeta : List ℚ) :
    ((∃ e, m.position paranoid cfg t zeta = Except.error e) ↔
      (m.locate_zeta paranoid cfg zeta (List.replicate m.nlagrangian 0) false).2.sub_geom_object_pt
        = none) ∧
    (∀ sub, (m.locate_zeta paranoid cfg zeta (List.replicate m.nlagrangian 0)
        false).2.sub_geom_object_pt = some sub →
      m.position paranoid cfg t zeta = Except.ok (sub.position t
        (m.locate_zeta paranoid cfg zeta (List.replicate m.nlagrangian 0) false).2.s)) ∧
    m.position_now paranoid cfg zeta = m.position paranoid cfg 0 zeta := by
  refine ⟨?_, ?_, rfl⟩
  · unfold position
    simp only
    cases hloc : (m.locate_zeta paranoid cfg zeta (List.replicate m.nlagrangian 0)
        false).2.sub_geom_object_pt with
    | none => simp
    | some sub => simp
  · intro sub hsub
    unfold position
    simp only [hsub]

/-- C6: for both values of `use_coordinate_as_initial_guess` (and with or
without `PARANOID`) `locate_zeta` produces the sub-object and the local
coordinate that `spiraling_locate_zeta` produces with
`called_within_spiral = false`; the flag has no influence on the result. -/
theorem locate_zeta_eq_spiraling_locate_zeta (paranoid flag : Bool) (m : MeshAsGeomObject)
    (cfg : LocateConfig) (zeta s : List ℚ) :
    (m.locate_zeta paranoid cfg zeta s flag).2 = m.spiraling_locate_zeta cfg zeta s false ∧
    (m.locate_zeta paranoid cfg zeta s true).2 = (m.locate_zeta paranoid cfg zeta s false).2 :=
  ⟨rfl, rfl⟩

end MeshAsGeomObject

/-! ### One-dimensional Lagrange shape functions -/

namespace OneDimLagrange

/-- C10: for two, three and four nodes the shape functions interpolate at the
equally spaced nodes `s_j = -1 + 2j/(NNODE_1D-1)`: `shape<NNODE_1D>(s_j, Psi)`
returns `Psi[i] = 1` for `i = j` and `0` otherwise (exact arithmetic). -/
theorem shape_at_node (NNODE_1D j : Nat) (hN : NNODE_1D = 2 ∨ NNODE_1D = 3 ∨ NNODE_1D = 4)
    (hj : j < NNODE_1D) :
    shape NNODE_1D (node NNODE_1D j) =
      Except.ok ((List.range NNODE_1D).map (fun i => if i = j then (1 : ℚ) else 0)) := by
  rcases hN with rfl | rfl | rfl
  · interval_cases j <;> simp [shape, node, List.range_succ] <;> norm_num
  · interval_cases j <;> simp [shape, node, List.range_succ] <;> norm_num
  · interval_cases j <;> simp [shape, node, List.range_succ] <;> norm_num

/-- C10 (witness): the cubic shape functions at the second node, `s = -1/3`. -/
theorem shape_at_node_witness :
    shape 4 (node 4 1) = Except.ok ((List.range 4).map (fun i => if i = 1 then (1 : ℚ) else 0)) :=
  shape_at_node 4 1 (by decide) (by decide)

end OneDimLagrange

/-! ### The coupling state of the Boussinesq driver -/

namespace ConvectionProblem

theorem neverStale_step (p : ConvectionProblem) (e : DriverEvent) (h : NeverStale p) :
    NeverStale (p.step e) := by
  obtain ⟨h1, h2⟩ := h
  cases e with
  | construct => exact ⟨by simp [step, construct, set_sources], h2⟩
  | distribute =>
    exact ⟨by simp [step, distribute, actions_after_distribute, set_sources], h2⟩
  | solve =>
    refine ⟨h1, ?_⟩
    intro r hr
    simp only [step, newton_solve, List.mem_append, List.mem_singleton] at hr
    rcases hr with hr | rfl
    · exact h2 r hr
    · exact h1

theorem neverStale_run (events : List DriverEvent) :
    ∀ p : ConvectionProblem, NeverStale p → NeverStale (p.run events) := by
  induction events with
  | nil => intro p h; exact h
  | cons e rest ih => intro p h; exact ih _ (neverStale_step p e h)

theorem builtFor_step (nst adv : Nat) (p : ConvectionProblem) (e : DriverEvent)
    (h : BuiltFor nst adv p) : BuiltFor nst adv (p.step e) := by
  obtain ⟨h1, h2, h3, h4, h5⟩ := h
  cases e with
  | construct =>
    exact ⟨h1, h2, rfl, by simp [step, construct, set_sources, nst_mesh_pt, adv_diff_mesh_pt, h1, h2],
      h5⟩
  | distribute =>
    exact ⟨h1, h2, rfl, by
      simp [step, distribute, actions_after_distribute, mesh_mutation, set_sources, nst_mesh_pt,
        adv_diff_mesh_pt, h1, h2], h5⟩
  | solve =>
    refine ⟨h1, h2, h3, h4, ?_⟩
    intro r hr
    simp only [step, newton_solve, List.mem_append, List.mem_singleton] at hr
    rcases hr with hr | rfl
    · exact h5 r hr
    · rw [h3, h4]

theorem builtFor_run (nst adv : Nat) (events : List DriverEvent) :
    ∀ p : ConvectionProblem, BuiltFor nst adv p → BuiltFor nst adv (p.run events) := by
  induction events with
  | nil => intro p h; exact h
  | cons e rest ih => intro p h; exact ih _ (builtFor_step nst adv p e h)

theorem builtFor_construct (nst adv : Nat) :
    BuiltFor nst adv ((unbuilt nst adv).step DriverEvent.construct) :=
  ⟨rfl, rfl, rfl, rfl, by intro r hr; simp [step, construct, set_sources, unbuilt] at hr⟩

/-- C8: whatever sequence of the events construct, distribute and solve the
driver performs, no Newton solve is taken in the Stale state; once the problem
is constructed every solve sees the coupling built by `set_sources` for the pair
(nst_mesh, adv_diff_mesh), also after any number of distributions; in
particular this holds for the event sequence of `main`. -/
theorem no_solve_in_stale_state (nst adv : Nat) (events : List DriverEvent) :
    (∀ r, r ∈ ((unbuilt nst adv).run events).solves → r.coupling ≠ CouplingState.Stale) ∧
    (∀ r, r ∈ ((unbuilt nst adv).run (DriverEvent.construct :: events)).solves →
      r = { coupling := CouplingState.Built, sources := some (nst, adv) }) ∧
    (∀ (has_mpi : Bool) (argc : Nat) (r : SolveRecord),
      r ∈ ((unbuilt nst adv).run (main_events has_mpi argc)).solves →
      r = { coupling := CouplingState.Built, sources := some (nst, adv) }) ∧
    (∀ p : ConvectionProblem, p.distribute.coupling = CouplingState.Built ∧
      p.distribute.sources = some (p.Nst_mesh_pt, p.Adv_diff_mesh_pt)) := by
  refine ⟨?_, ?_, ?_, ?_⟩
  · exact (neverStale_run events _
      ⟨by simp [unbuilt], by intro r hr; simp [unbuilt] at hr⟩).2
  · exact (builtFor_run nst adv events _ (builtFor_construct nst adv)).2.2.2.2
  · intro has_mpi argc
    exact (builtFor_run nst adv _ _ (builtFor_construct nst adv)).2.2.2.2
  · intro p
    exact ⟨rfl, rfl⟩

end ConvectionProblem

/-! ### Buoyancy coupling -/

theorem getD_map_range {α : Type} (f : Nat → α) (n i : Nat) (d : α) (h : i < n) :
    ((List.range n).map f).getD i d = f i := by
  simp [List.getD_eq_getElem?_getD, List.getElem?_range h]

theorem sum_update_not_mem (dofs : Nat → ℚ) (g : Nat) (v : ℚ) (l : List (ℚ × Nat))
    (h : g ∉ l.map Prod.snd) :
    (l.map (fun p => p.1 * Function.update dofs g v p.2)).sum =
      (l.map (fun p => p.1 * dofs p.2)).sum := by
  induction l with
  | nil => rfl
  | cons p rest ih =>
    simp only [List.map_cons, List.mem_cons, not_or] at h
    simp only [List.map_cons, List.sum_cons]
    rw [ih h.2, Function.update_noteq (Ne.symm h.1)]

theorem sum_update_nth (dofs : Nat → ℚ) (h : ℚ) :
    ∀ (l : List (ℚ × Nat)), (l.map Prod.snd).Nodup → ∀ n, n < l.length →
      (l.map (fun p => p.1 * Function.update dofs ((l.map Prod.snd).getD n 0)
        (dofs ((l.map Prod.snd).getD n 0) + h) p.2)).sum =
      (l.map (fun p => p.1 * dofs p.2)).sum + h * (l.map Prod.fst).getD n 0 := by
  intro l
  induction l with
  | nil => intro _ n hn; simp at hn
  | cons p rest ih =>
    intro hnd n hn
    simp only [List.map_cons, List.nodup_cons] at hnd
    cases n with
    | zero =>
      simp only [List.map_cons, List.getD_cons_zero, List.sum_cons, Function.update_same]
      rw [sum_update_not_mem dofs p.2 _ rest hnd.1]
      ring
    | succ n =>
      simp only [List.length_cons, Nat.add_lt_add_iff_right] at hn
      simp only [List.map_cons, List.getD_cons_succ, List.sum_cons]
      have hmem : (rest.map Prod.snd).getD n 0 ∈ rest.map Prod.snd := by
        rw [List.getD_eq_getElem?_getD, List.getElem?_eq_getElem (by simpa using hn)]
        simp only [Option.getD_some]
        exact List.getElem_mem _
      have hne : p.2 ≠ (rest.map Prod.snd).getD n 0 := by
        intro e
        exact hnd.1 (e ▸ hmem)
      rw [Function.update_noteq hne, ih hnd.2 n hn]
      ring

namespace QCrouzeixRaviartElementWithExternalElement

/-- C7: with the temperature of the source element the weighted sum of the
global unknowns returned by `dinterpolated_u_adv_diff_ddata` (one weight per
distinct unknown), the matrix filled by
`get_dbody_force_nst_dexternal_element_data` has `DIM` rows and one column per
returned equation number, its entries are `-gravity[i]*w_n*Ra`, and they are the
exact derivatives of the body force `-gravity[i]*T*Ra` of `get_body_force_nst`:
changing unknown `n` by `h` changes component `i` by `h*result(i,n)`. -/
theorem dbody_force_is_derivative {DIM : Nat}
    (el : QCrouzeixRaviartElementWithExternalElement DIM) (dofs : Nat → ℚ) (time : ℚ)
    (ipt : Nat) (s x : List ℚ)
    (hlen : ((el.External_element_pt 0 ipt).du_adv_diff_ddata
        (el.External_element_local_coord 0 ipt)).length =
      ((el.External_element_pt 0 ipt).global_eqn_number
        (el.External_element_local_coord 0 ipt)).length)
    (hnodup : ((el.External_element_pt 0 ipt).global_eqn_number
      (el.External_element_local_coord 0 ipt)).Nodup) :
    (el.get_dbody_force_nst_dexternal_element_data ipt).1.length = DIM ∧
    (∀ row, row ∈ (el.get_dbody_force_nst_dexternal_element_data ipt).1 →
      row.length = (el.get_dbody_force_nst_dexternal_element_data ipt).2.length) ∧
    ∀ i n, i < DIM → n < (el.get_dbody_force_nst_dexternal_element_data ipt).2.length →
      ((el.get_dbody_force_nst_dexternal_element_data ipt).1.getD i []).getD n 0 =
        -(el.G.getD i 0) * ((el.External_element_pt 0 ipt).du_adv_diff_ddata
          (el.External_element_local_coord 0 ipt)).getD n 0 * el.ra ∧
      (el.get_body_force_nst dofs time ipt s x).getD i 0 =
        -(el.G.getD i 0) * (el.External_element_pt 0 ipt).interpolated_u_adv_diff dofs
          (el.External_element_local_coord 0 ipt) * el.ra ∧
      ∀ h : ℚ,
        (el.get_body_force_nst
          (Function.update dofs ((el.get_dbody_force_nst_dexternal_element_data ipt).2.getD n 0)
            (dofs ((el.get_dbody_force_nst_dexternal_element_data ipt).2.getD n 0) + h))
          time ipt s x).getD i 0 - (el.get_body_force_nst dofs time ipt s x).getD i 0 =
        h * ((el.get_dbody_force_nst_dexternal_element_data ipt).1.getD i []).getD n 0 := by
  generalize hw : (el.External_element_pt 0 ipt).du_adv_diff_ddata
    (el.External_element_local_coord 0 ipt) = ws at hlen
  generalize he : (el.External_element_pt 0 ipt).global_eqn_number
    (el.External_element_local_coord 0 ipt) = es at hlen hnodup
  have hfst : (ws.zip es).map Prod.fst = ws := List.map_fst_zip _ _ (le_of_eq hlen)
  have hsnd : (ws.zip es).map Prod.snd = es := List.map_snd_zip _ _ (le_of_eq hlen.symm)
  have hzlen : (ws.zip es).length = es.length := by
    rw [List.length_zip, hlen, Nat.min_self]
  simp only [get_dbody_force_nst_dexternal_element_data, get_body_force_nst,
    QAdvectionDiffusionElementWithExternalElement.dinterpolated_u_adv_diff_ddata,
    QAdvectionDiffusionElementWithExternalElement.interpolated_u_adv_diff, hw, he]
  refine ⟨by simp, ?_, ?_⟩
  · intro row hrow
    simp only [List.mem_map, List.mem_range] at hrow
    obtain ⟨i, _, rfl⟩ := hrow
    simp [hlen]
  · intro i n hi hn
    have hn' : n < ws.length := by rw [hlen]; exact hn
    rw [getD_map_range _ _ _ _ hi, getD_map_range _ _ _ _ hn', getD_map_range _ _ _ _ hi]
    refine ⟨rfl, rfl, ?_⟩
    intro h
    rw [getD_map_range _ _ _ _ hi]
    have key := sum_update_nth dofs h (ws.zip es) (by rw [hsnd]; exact hnodup) n
      (by rw [hzlen]; exact hn)
    rw [hsnd, hfst] at key
    subst he
    rw [key]
    ring

end QCrouzeixRaviartElementWithExternalElement

/-! ### Sum of matrices -/

theorem getD_set (t : List ℚ) (c j : Nat) (v : ℚ) (hc : c < t.length) :
    (t.set c v).getD j 0 = if j = c then v else t.getD j 0 := by
  simp only [List.getD_eq_getElem?_getD, List.getElem?_set, if_pos hc]
  by_cases h : c = j
  · subst h; simp
  · rw [if_neg h, if_neg (Ne.symm h)]

theorem sum_range_ite (a b : Nat → ℚ) (c : Nat) :
    ∀ n, c < n →
      ((List.range n).map (fun j => if j = c then a j else b j)).sum =
        ((List.range n).map b).sum + (a c - b c) := by
  intro n
  induction n with
  | zero => intro h; omega
  | succ n ih =>
    intro h
    rw [List.range_succ, List.map_append, List.map_append, List.sum_append, List.sum_append]
    simp only [List.map_cons, List.map_nil, List.sum_cons, List.sum_nil, add_zero]
    by_cases hc : c = n
    · subst hc
      have e : (List.range c).map (fun j => if j = c then a j else b j) = (List.range c).map b := by
        apply List.map_congr_left
        intro j hj
        rw [List.mem_range] at hj
        rw [if_neg (by omega)]
      rw [e, if_pos rfl]
      ring
    · rw [ih (by omega), if_neg (Ne.symm hc)]
      ring

namespace SumOfMatrices

theorem length_pull_out_fold (x : List ℚ) (C : List (Nat × Nat)) :
    ∀ t0 : List ℚ,
      (C.foldl (fun temp_x it => temp_x.set it.2 (x.getD it.1 0)) t0).length = t0.length := by
  induction C with
  | nil => intro t0; rfl
  | cons it rest ih => intro t0; rw [List.foldl_cons, ih, List.length_set]

theorem sum_pull_out_fold (x : List ℚ) (w : Nat → ℚ) (n : Nat) (C : List (Nat × Nat)) :
    ∀ t0 : List ℚ, (C.map Prod.snd).Nodup → (∀ it, it ∈ C → it.2 < n) → t0.length = n →
      ((List.range n).map (fun j => w j *
        (C.foldl (fun temp_x it => temp_x.set it.2 (x.getD it.1 0)) t0).getD j 0)).sum =
      ((List.range n).map (fun j => w j * t0.getD j 0)).sum +
        (C.map (fun it => w it.2 * (x.getD it.1 0 - t0.getD it.2 0))).sum := by
  induction C with
  | nil => intro t0 _ _ _; simp
  | cons it rest ih =>
    intro t0 hnd hrange hlen
    simp only [List.map_cons, List.nodup_cons] at hnd
    have hit : it.2 < n := hrange it (List.mem_cons_self _ _)
    rw [List.foldl_cons, ih (t0.set it.2 (x.getD it.1 0)) hnd.2
      (fun p hp => hrange p (List.mem_cons_of_mem _ hp)) (by rw [List.length_set]; exact hlen)]
    have e1 : (List.range n).map (fun j => w j * (t0.set it.2 (x.getD it.1 0)).getD j 0) =
        (List.range n).map (fun j => if j = it.2 then w j * x.getD it.1 0
          else w j * t0.getD j 0) := by
      apply List.map_congr_left
      intro j _
      rw [getD_set t0 it.2 j _ (by rw [hlen]; exact hit)]
      split <;> rfl
    have e2 : rest.map (fun p => w p.2 * (x.getD p.1 0 - (t0.set it.2 (x.getD it.1 0)).getD p.2 0)) =
        rest.map (fun p => w p.2 * (x.getD p.1 0 - t0.getD p.2 0)) := by
      apply List.map_congr_left
      intro p hp
      have hne : p.2 ≠ it.2 := by
        intro e
        exact hnd.1 (e ▸ List.mem_map_of_mem Prod.snd hp)
      rw [getD_set t0 it.2 p.2 _ (by rw [hlen]; exact hit), if_neg hne]
    rw [e1, e2, sum_range_ite _ _ it.2 n hit]
    simp only [List.map_cons, List.sum_cons]
    ring

theorem getD_multiply_pull_out (A : DoubleMatrixBase) (x : List ℚ) (C : List (Nat × Nat))
    (hsq : A.nrow = A.ncol) (hnd : (C.map Prod.snd).Nodup) (hrange : ∀ it, it ∈ C → it.2 < A.ncol)
    (i : Nat) (hi : i < A.nrow) :
    (A.multiply (pull_out x C A.nrow)).getD i 0 =
      (C.map (fun it => A.entry i it.2 * x.getD it.1 0)).sum := by
  unfold DoubleMatrixBase.multiply pull_out
  rw [getD_map_range _ _ _ _ hi, hsq,
    sum_pull_out_fold x (A.entry i) A.ncol C _ hnd hrange (List.length_replicate _ _)]
  have z : ∀ j, (List.replicate A.ncol (0 : ℚ)).getD j 0 = 0 := by
    intro j
    simp only [List.getD_eq_getElem?_getD, List.getElem?_replicate]
    split <;> rfl
  simp only [z, mul_zero, sub_zero]
  have z2 : ((List.range A.ncol).map (fun _ => (0 : ℚ))).sum = 0 := by
    simp
  rw [z2, zero_add]

theorem length_add_result (ts : List ℚ) (R : List (Nat × Nat)) :
    ∀ soln : List ℚ, (add_result soln ts R).length = soln.length := by
  induction R with
  | nil => intro soln; rfl
  | cons it rest ih =>
    intro soln
    unfold add_result at ih ⊢
    rw [List.foldl_cons, ih, List.length_set]

theorem getD_add_result (ts : List ℚ) (r : Nat) (R : List (Nat × Nat)) :
    ∀ soln : List ℚ, (∀ it, it ∈ R → it.1 < soln.length) →
      (add_result soln ts R).getD r 0 =
        soln.getD r 0 + ((R.filter (fun it => decide (it.1 = r))).map
          (fun it => ts.getD it.2 0)).sum := by
  induction R with
  | nil => intro soln _; simp [add_result]
  | cons it rest ih =>
    intro soln hrange
    have hit : it.1 < soln.length := hrange it (List.mem_cons_self _ _)
    unfold add_result at ih ⊢
    rw [List.foldl_cons, ih _ (by
      intro p hp
      rw [List.length_set]
      exact hrange p (List.mem_cons_of_mem _ hp)), getD_set soln it.1 r _ hit]
    by_cases h : it.1 = r
    · subst h
      simp only [if_true, List.filter_cons, decide_True, List.map_cons, List.sum_cons]
      ring
    · rw [if_neg (Ne.symm h)]
      simp only [List.filter_cons, h, decide_False, Bool.false_eq_true, if_false]

theorem length_add_contribution (x soln : List ℚ)
    (a : DoubleMatrixBase × List (Nat × Nat) × List (Nat × Nat)) :
    (add_contribution x soln a).length = soln.length := by
  unfold add_contribution
  exact length_add_result _ _ _

theorem getD_add_contribution (main : DoubleMatrixBase) (x soln : List ℚ)
    (a : DoubleMatrixBase × List (Nat × Nat) × List (Nat × Nat))
    (hwf : WellFormed main x a) (hlen : soln.length = main.nrow) (r : Nat) :
    (add_contribution x soln a).getD r 0 = soln.getD r 0 + added_term x r a := by
  unfold add_contribution added_term
  simp only
  rw [getD_add_result _ r a.2.1 soln (by
    intro it hit
    rw [hlen]
    exact (hwf.row_range it hit).1)]
  congr 2
  apply List.map_congr_left
  intro itr hitr
  have hmem : itr ∈ a.2.1 := (List.mem_filter.1 hitr).1
  exact getD_multiply_pull_out a.1 x a.2.2 hwf.square hwf.col_inj
    (fun it hit => (hwf.col_range it hit).2) itr.2 (hwf.row_range itr hmem).2

theorem getD_foldl_add_contribution (main : DoubleMatrixBase) (x : List ℚ) (r : Nat)
    (L : List (DoubleMatrixBase × List (Nat × Nat) × List (Nat × Nat))) :
    ∀ soln : List ℚ, (∀ a, a ∈ L → WellFormed main x a) → soln.length = main.nrow →
      (L.foldl (add_contribution x) soln).getD r 0 =
        soln.getD r 0 + (L.map (added_term x r)).sum := by
  induction L with
  | nil => intro soln _ _; simp
  | cons a rest ih =>
    intro soln hwf hlen
    rw [List.foldl_cons, ih _ (fun b hb => hwf b (List.mem_cons_of_mem _ hb))
      (by rw [length_add_contribution]; exact hlen),
      getD_add_contribution main x soln a (hwf a (List.mem_cons_self _ _)) hlen r]
    simp only [List.map_cons, List.sum_cons]
    ring

theorem added_term_eq_zero (x : List ℚ) (r : Nat)
    (a : DoubleMatrixBase × List (Nat × Nat) × List (Nat × Nat))
    (h : ∀ it, it ∈ a.2.1 → it.1 ≠ r) : added_term x r a = 0 := by
  unfold added_term
  have e : a.2.1.filter (fun it => decide (it.1 = r)) = [] := by
    rw [List.filter_eq_nil_iff]
    intro it hit
    simpa using h it hit
  rw [e]
  rfl

end SumOfMatrices

namespace SumOfMatrices

/-- C9: for well-formed added matrices (square, injective maps, indices in
range) entry `r` of `multiply(x)` is entry `r` of `Main*x` plus, for every added
matrix, the sum over the rows `r` of its row map and the columns `c` of its
column map of `A(R(r), C(c)) * x[c]`; a row in no row map gets exactly
`(Main*x)[r]`, and without added matrices the result is `Main*x`. -/
theorem multiply_eq_sum (S : SumOfMatrices) (x : List ℚ)
    (hwf : ∀ a, a ∈ S.Added_matrix_pt.zip (S.Row_map_pts.zip S.Col_map_pts) →
      WellFormed S.Main_matrix_pt x a) (r : Nat) :
    (S.multiply x).getD r 0 = (S.Main_matrix_pt.multiply x).getD r 0 +
      ((S.Added_matrix_pt.zip (S.Row_map_pts.zip S.Col_map_pts)).map (added_term x r)).sum ∧
    ((∀ a, a ∈ S.Added_matrix_pt.zip (S.Row_map_pts.zip S.Col_map_pts) →
        ∀ it, it ∈ a.2.1 → it.1 ≠ r) →
      (S.multiply x).getD r 0 = (S.Main_matrix_pt.multiply x).getD r 0) ∧
    (S.Added_matrix_pt = [] → S.multiply x = S.Main_matrix_pt.multiply x) := by
  have hlen : (S.Main_matrix_pt.multiply x).length = S.Main_matrix_pt.nrow := by
    simp [DoubleMatrixBase.multiply]
  have main := getD_foldl_add_contribution S.Main_matrix_pt x r _ _ hwf hlen
  refine ⟨main, ?_, ?_⟩
  · intro hno
    have hz : ((S.Added_matrix_pt.zip (S.Row_map_pts.zip S.Col_map_pts)).map
        (added_term x r)).sum = 0 := by
      apply List.sum_eq_zero
      intro v hv
      obtain ⟨a, ha, rfl⟩ := List.mem_map.1 hv
      exact added_term_eq_zero x r a (hno a ha)
    show ((S.Added_matrix_pt.zip (S.Row_map_pts.zip S.Col_map_pts)).foldl (add_contribution x)
      (S.Main_matrix_pt.multiply x)).getD r 0 = _
    rw [main, hz, add_zero]
  · intro hnil
    unfold multiply
    rw [hnil]
    rfl

/-- C9 (witness): the sample sum applied to `[1, 10, 100]`, row 0. -/
theorem multiply_eq_sum_witness :
    (sample_sum.multiply [1, 10, 100]).getD 0 0 =
      (sample_sum.Main_matrix_pt.multiply [1, 10, 100]).getD 0 0 +
        ((sample_sum.Added_matrix_pt.zip (sample_sum.Row_map_pts.zip sample_sum.Col_map_pts)).map
          (added_term [1, 10, 100] 0)).sum :=
  (multiply_eq_sum sample_sum [1, 10, 100] (by
    intro a ha
    simp only [sample_sum, List.zip_cons_cons, List.zip_nil_right, List.mem_singleton] at ha
    subst ha
    constructor <;> simp [sample_sum]) 0).1

end SumOfMatrices

namespace QCrouzeixRaviartElementWithExternalElement

/-- C7 (witness): for the sample element the derivative matrix has two rows, and
its entry for the vertical component and the first unknown is `1*(1/4)*1800`. -/
theorem dbody_force_is_derivative_witness :
    (sample_nst_element.get_dbody_force_nst_dexternal_element_data 0).1.length = 2 ∧
    ((sample_nst_element.get_dbody_force_nst_dexternal_element_data 0).1.getD 1 []).getD 0 0 =
      -(sample_nst_element.G.getD 1 0) * ((sample_nst_element.External_element_pt 0 0).du_adv_diff_ddata
          (sample_nst_element.External_element_local_coord 0 0)).getD 0 0 * sample_nst_element.ra :=
  have h := dbody_force_is_derivative sample_nst_element (fun _ => 0) 0 0 [0, 0] [0, 0] rfl
    (by decide)
  ⟨h.1, (h.2.2 1 0 (by decide) (by decide)).1⟩

end QCrouzeixRaviartElementWithExternalElement

/-! ### Derivatives of the one-dimensional Lagrange shape functions -/

namespace OneDimLagrange

/-- C11: for two, three and four nodes there are polynomials, one per index `i`,
whose values are what `shape<NNODE_1D>` writes to `Psi[i]`, whose derivatives
have the values `dshape<NNODE_1D>` writes to `DPsi[i]`, and whose second
derivatives have the values `d2shape<NNODE_1D>` writes, for every `s`.  (A
polynomial over the rationals is determined by its values, so these are the
polynomials of the shape functions.) -/
theorem dshape_is_derivative_of_shape (NNODE_1D : Nat)
    (hN : NNODE_1D = 2 ∨ NNODE_1D = 3 ∨ NNODE_1D = 4) :
    ∃ polys : List (Polynomial ℚ), polys.length = NNODE_1D ∧
      ∀ s : ℚ,
        shape NNODE_1D s = Except.ok (polys.map (fun p => p.eval s)) ∧
        dshape NNODE_1D s =
          Except.ok (polys.map (fun p => (Polynomial.derivative p).eval s)) ∧
        d2shape NNODE_1D s =
          Except.ok (polys.map
            (fun p => (Polynomial.derivative (Polynomial.derivative p)).eval s)) := by
  rcases hN with rfl | rfl | rfl
  · refine ⟨[Polynomial.C (1 / 2) * (1 - Polynomial.X),
        Polynomial.C (1 / 2) * (1 + Polynomial.X)], rfl, fun s => ⟨?_, ?_, ?_⟩⟩
    · simp [shape]
      norm_num
    · simp [dshape]
      norm_num
    · simp [d2shape]
      norm_num
  · refine ⟨[Polynomial.C (1 / 2) * Polynomial.X * (Polynomial.X - 1),
        1 - Polynomial.X * Polynomial.X,
        Polynomial.C (1 / 2) * Polynomial.X * (Polynomial.X + 1)], rfl,
      fun s => ⟨?_, ?_, ?_⟩⟩
    · simp [shape]
      norm_num
    · simp [dshape]
      refine ⟨?_, ?_, ?_⟩ <;> ring
    · simp [d2shape]
      refine ⟨?_, ?_, ?_⟩ <;> ring
  · refine ⟨[Polynomial.C (-9 / 16) * Polynomial.X ^ 3 + Polynomial.C (9 / 16) * Polynomial.X ^ 2
          + Polynomial.C (1 / 16) * Polynomial.X - Polynomial.C (1 / 16),
        Polynomial.C (27 / 16) * Polynomial.X ^ 3 - Polynomial.C (9 / 16) * Polynomial.X ^ 2
          - Polynomial.C (27 / 16) * Polynomial.X + Polynomial.C (9 / 16),
        Polynomial.C (-27 / 16) * Polynomial.X ^ 3 - Polynomial.C (9 / 16) * Polynomial.X ^ 2
          + Polynomial.C (27 / 16) * Polynomial.X + Polynomial.C (9 / 16),
        Polynomial.C (9 / 16) * Polynomial.X ^ 3 + Polynomial.C (9 / 16) * Polynomial.X ^ 2
          - Polynomial.C (1 / 16) * Polynomial.X - Polynomial.C (1 / 16)], rfl,
      fun s => ⟨?_, ?_, ?_⟩⟩
    · simp [shape]
      refine ⟨?_, ?_, ?_, ?_⟩ <;> ring
    · simp [dshape]
      refine ⟨?_, ?_, ?_, ?_⟩ <;> ring
    · simp [d2shape]
      refine ⟨?_, ?_, ?_, ?_⟩ <;> ring

/-- C11 (witness): the cubic case. -/
theorem dshape_is_derivative_of_shape_witness :
    ∃ polys : List (Polynomial ℚ), polys.length = 4 ∧
      ∀ s : ℚ,
        shape 4 s = Except.ok (polys.map (fun p => p.eval s)) ∧
        dshape 4 s = Except.ok (polys.map (fun p => (Polynomial.derivative p).eval s)) ∧
        d2shape 4 s =
          Except.ok (polys.map
            (fun p => (Polynomial.derivative (Polynomial.derivative p)).eval s)) :=
  dshape_is_derivative_of_shape 4 (by decide)

end OneDimLagrange

/-! ### Pressure transfer between father and sons -/

namespace RefineableQCrouzeixRaviartElement

theorem value_further_build (self father : RefineableQCrouzeixRaviartElement)
    (son_type : SonType) :
    (self.further_build son_type father).P_nst_internal.value 0 =
      father.interpolated_p_nst
        (if son_type = SonType.SW then [-0.5, -0.5]
          else if son_type = SonType.SE then [0.5, -0.5]
          else if son_type = SonType.NE then [0.5, 0.5]
          else if son_type = SonType.NW then [-0.5, 0.5]
          else [0, 0]) ∧
    (self.further_build son_type father).P_nst_internal.value 1 =
      0.5 * father.P_nst_internal.value 1 ∧
    (self.further_build son_type father).P_nst_internal.value 2 =
      0.5 * father.P_nst_internal.value 2 := by
  simp [further_build, Data.set_value, Function.update]

/-- C12: for each son type SW, SE, NE, NW with midpoint `m` in father
coordinates, `further_build` sets the son's pressure values to
`(p_F(m), P1/2, P2/2)`, so that the son's pressure field satisfies
`p_S(s) = p_F(m + s/2)` for every son-local `s`. -/
theorem further_build_matches_father (self father : RefineableQCrouzeixRaviartElement)
    (son_type : SonType) (m0 m1 : ℚ)
    (h : (son_type = SonType.SW ∧ m0 = -1 / 2 ∧ m1 = -1 / 2) ∨
      (son_type = SonType.SE ∧ m0 = 1 / 2 ∧ m1 = -1 / 2) ∨
      (son_type = SonType.NE ∧ m0 = 1 / 2 ∧ m1 = 1 / 2) ∨
      (son_type = SonType.NW ∧ m0 = -1 / 2 ∧ m1 = 1 / 2)) :
    (self.further_build son_type father).P_nst_internal.value 0 =
      father.interpolated_p_nst [m0, m1] ∧
    (self.further_build son_type father).P_nst_internal.value 1 =
      father.P_nst_internal.value 1 / 2 ∧
    (self.further_build son_type father).P_nst_internal.value 2 =
      father.P_nst_internal.value 2 / 2 ∧
    ∀ s : List ℚ, (self.further_build son_type father).interpolated_p_nst s =
      father.interpolated_p_nst [m0 + s.getD 0 0 / 2, m1 + s.getD 1 0 / 2] := by
  obtain ⟨v0, v1, v2⟩ := value_further_build self father son_type
  have e0 : (self.further_build son_type father).P_nst_internal.value 0 =
      father.interpolated_p_nst [m0, m1] := by
    rw [v0]
    rcases h with ⟨rfl, rfl, rfl⟩ | ⟨rfl, rfl, rfl⟩ | ⟨rfl, rfl, rfl⟩ | ⟨rfl, rfl, rfl⟩ <;>
      simp [interpolated_p_nst] <;> norm_num
  refine ⟨e0, by rw [v1]; ring, by rw [v2]; ring, ?_⟩
  intro s
  unfold interpolated_p_nst at e0 ⊢
  rw [e0, v1, v2]
  simp only [List.getD_cons_zero, List.getD_cons_succ]
  ring

/-- C12 (witness): the north-east son of the sample father. -/
theorem further_build_matches_father_witness :
    (fresh_son.further_build SonType.NE sample_father).P_nst_internal.value 0 =
      sample_father.interpolated_p_nst [1 / 2, 1 / 2] ∧
    (fresh_son.further_build SonType.NE sample_father).P_nst_internal.value 1 =
      sample_father.P_nst_internal.value 1 / 2 ∧
    (fresh_son.further_build SonType.NE sample_father).P_nst_internal.value 2 =
      sample_father.P_nst_internal.value 2 / 2 ∧
    ∀ s : List ℚ, (fresh_son.further_build SonType.NE sample_father).interpolated_p_nst s =
      sample_father.interpolated_p_nst [1 / 2 + s.getD 0 0 / 2, 1 / 2 + s.getD 1 0 / 2] :=
  further_build_matches_father fresh_son sample_father SonType.NE (1 / 2) (1 / 2)
    (Or.inr (Or.inr (Or.inl ⟨rfl, rfl, rfl⟩)))

/-- In exact arithmetic (every sum, difference and product taken in `ℚ`, without
the rounding of the program's doubles): if the four sons SW, SE, NE, NW get
their pressure values from `further_build` with the same father, then
`rebuild_from_sons` returns the father's pressure values `(P0, P1, P2)`. -/
theorem rebuild_from_sons_exact
    (self father : RefineableQCrouzeixRaviartElement)
    (sons : SonType → RefineableQCrouzeixRaviartElement) :
    (self.rebuild_from_sons
      (fun t => (sons t).further_build t father)).P_nst_internal.value 0 =
        father.P_nst_internal.value 0 ∧
    (self.rebuild_from_sons
      (fun t => (sons t).further_build t father)).P_nst_internal.value 1 =
        father.P_nst_internal.value 1 ∧
    (self.rebuild_from_sons
      (fun t => (sons t).further_build t father)).P_nst_internal.value 2 =
        father.P_nst_internal.value 2 := by
  have hSW := (value_further_build (sons SonType.SW) father SonType.SW).1
  have hSE := (value_further_build (sons SonType.SE) father SonType.SE).1
  have hNW := (value_further_build (sons SonType.NW) father SonType.NW).1
  have hNE := (value_further_build (sons SonType.NE) father SonType.NE).1
  simp only [interpolated_p_nst, if_true, List.getD_cons_zero, List.getD_cons_succ] at hSW
  simp [interpolated_p_nst] at hSE hNW hNE
  refine ⟨?_, ?_, ?_⟩
  · simp only [rebuild_from_sons, Data.set_value, List.foldl_cons, List.foldl_nil]
    simp [Function.update]
    rw [hSW, hSE, hNW, hNE]
    ring
  · simp only [rebuild_from_sons, Data.set_value]
    simp [Function.update]
    rw [hSW, hSE, hNW, hNE]
    ring
  · simp only [rebuild_from_sons, Data.set_value]
    simp [Function.update]
    rw [hSW, hSE, hNW, hNE]
    ring

end RefineableQCrouzeixRaviartElement

/-! ### Pinning of redundant nodal pressures -/

theorem pin_loop (f : Nat → Nat) (p : Nat) (ns : List Nat) :
    ∀ st : NodeStore,
      (ns.foldl (fun acc n => acc.pin (f n) p) st).hanging = st.hanging ∧
      ∀ N v, (ns.foldl (fun acc n => acc.pin (f n) p) st).pinned N v =
        if v = p ∧ N ∈ ns.map f then true else st.pinned N v := by
  induction ns with
  | nil => intro st; simp
  | cons a rest ih =>
    intro st
    obtain ⟨h1, h2⟩ := ih (st.pin (f a) p)
    rw [List.foldl_cons]
    refine ⟨h1, ?_⟩
    intro N v
    rw [h2]
    simp only [NodeStore.pin, List.map_cons, List.mem_cons]
    by_cases hv : v = p
    · by_cases hr : N ∈ rest.map f
      · simp [hv, hr]
      · by_cases ha : N = f a
        · simp [hv, ha]
        · simp [hv, hr, ha]
    · simp [hv]

theorem unpin_loop (g : Nat → Nat) (p : Nat) (ls : List Nat) :
    ∀ st : NodeStore,
      (ls.foldl (fun acc l =>
        if !(acc.is_hanging (g l) p) then acc.unpin (g l) p else acc) st).hanging = st.hanging ∧
      ∀ N v, (ls.foldl (fun acc l =>
        if !(acc.is_hanging (g l) p) then acc.unpin (g l) p else acc) st).pinned N v =
        if v = p ∧ N ∈ ls.map g ∧ st.hanging N p = false then false
        else st.pinned N v := by
  induction ls with
  | nil => intro st; simp
  | cons a rest ih =>
    intro st
    rw [List.foldl_cons]
    by_cases hh : st.hanging (g a) p = true
    · have e : (if !(st.is_hanging (g a) p) then st.unpin (g a) p else st) = st := by
        simp [NodeStore.is_hanging, hh]
      rw [e]
      obtain ⟨h1, h2⟩ := ih st
      refine ⟨h1, ?_⟩
      intro N v
      rw [h2]
      simp only [List.map_cons, List.mem_cons]
      by_cases ha : N = g a
      · subst ha
        simp [hh]
      · simp [ha]
    · have hh' : st.hanging (g a) p = false := by simpa using hh
      have e : (if !(st.is_hanging (g a) p) then st.unpin (g a) p else st) = st.unpin (g a) p := by
        simp [NodeStore.is_hanging, hh']
      rw [e]
      obtain ⟨h1, h2⟩ := ih (st.unpin (g a) p)
      refine ⟨h1, ?_⟩
      intro N v
      rw [h2]
      simp only [NodeStore.unpin, List.map_cons, List.mem_cons]
      by_cases hv : v = p
      · by_cases ha : N = g a
        · subst ha
          simp [hv, hh']
        · simp [hv, ha]
      · simp [hv]

namespace RefineableQTaylorHoodElement

/-- Effect of `pin_elemental_redundant_nodal_pressure_dofs` on every flag. -/
theorem pin_elemental_spec (el : RefineableQTaylorHoodElement) (st : NodeStore) :
    (el.pin_elemental_redundant_nodal_pressure_dofs st).hanging = st.hanging ∧
    ∀ N v, (el.pin_elemental_redundant_nodal_pressure_dofs st).pinned N v =
      if v = el.p_nodal_index_nst ∧ el.has_pressure_node N ∧
          st.hanging N el.p_nodal_index_nst = false then false
      else if v = el.p_nodal_index_nst ∧ el.has_node N then true
      else st.pinned N v := by
  unfold pin_elemental_redundant_nodal_pressure_dofs
  simp only
  obtain ⟨a1, a2⟩ := pin_loop el.node_pt el.p_nodal_index_nst (List.range el.nnode) st
  obtain ⟨b1, b2⟩ := unpin_loop el.pressure_node_pt el.p_nodal_index_nst
    (List.range el.npres_nst)
    ((List.range el.nnode).foldl (fun acc n => acc.pin (el.node_pt n) el.p_nodal_index_nst) st)
  refine ⟨by rw [b1, a1], ?_⟩
  intro N v
  rw [b2, a2, a1]

end RefineableQTaylorHoodElement

namespace RefineableQTaylorHoodElement

theorem pin_redundant_append (es : List RefineableQTaylorHoodElement)
    (e : RefineableQTaylorHoodElement) (st : NodeStore) :
    pin_redundant_nodal_pressures (es ++ [e]) st =
      e.pin_elemental_redundant_nodal_pressure_dofs (pin_redundant_nodal_pressures es st) := by
  simp [pin_redundant_nodal_pressures, List.foldl_append]

/-- What the loop over the elements leaves behind when the elements agree on
their shared nodes. -/
theorem pin_redundant_spec (p : Nat) (st : NodeStore) (es : List RefineableQTaylorHoodElement) :
    (∀ e, e ∈ es → e.p_nodal_index_nst = p) →
    (∀ e, e ∈ es → ∀ N, e.has_pressure_node N → e.has_node N) →
    (∀ e1, e1 ∈ es → ∀ e2, e2 ∈ es → ∀ N, e1.has_node N → e2.has_node N →
      st.hanging N p = false → (e1.has_pressure_node N ↔ e2.has_pressure_node N)) →
    (pin_redundant_nodal_pressures es st).hanging = st.hanging ∧
    (∀ N v, v ≠ p → (pin_redundant_nodal_pressures es st).pinned N v = st.pinned N v) ∧
    ∀ e, e ∈ es → ∀ N, e.has_node N →
      ((pin_redundant_nodal_pressures es st).pinned N p = false ↔
        e.has_pressure_node N ∧ st.hanging N p = false) := by
  induction es using List.reverseRecOn with
  | nil =>
    intro _ _ _
    refine ⟨rfl, fun _ _ _ => rfl, ?_⟩
    intro e he
    simp at he
  | append_singleton es e0 ih =>
    intro hp hwf hcons
    have hsub : ∀ e, e ∈ es → e ∈ es ++ [e0] := fun e he => List.mem_append_left _ he
    have h0 : e0 ∈ es ++ [e0] := List.mem_append_right _ (List.mem_singleton_self _)
    obtain ⟨i1, i2, i3⟩ := ih (fun e he => hp e (hsub e he)) (fun e he => hwf e (hsub e he))
      (fun e1 h1 e2 h2 => hcons e1 (hsub e1 h1) e2 (hsub e2 h2))
    obtain ⟨s1, s2⟩ := pin_elemental_spec e0 (pin_redundant_nodal_pressures es st)
    rw [hp e0 h0, i1] at s2
    rw [pin_redundant_append]
    refine ⟨by rw [s1, i1], ?_, ?_⟩
    · intro N v hv
      rw [s2, if_neg (fun h => hv h.1), if_neg (fun h => hv h.1)]
      exact i2 N v hv
    · intro e he N hN
      rw [s2]
      by_cases h0N : e0.has_node N
      · by_cases hpr : e0.has_pressure_node N ∧ st.hanging N p = false
        · rw [if_pos ⟨rfl, hpr⟩]
          simp only [true_iff]
          exact ⟨(hcons e0 h0 e he N h0N hN hpr.2).1 hpr.1, hpr.2⟩
        · rw [if_neg (fun h => hpr h.2), if_pos ⟨rfl, h0N⟩]
          simp only [Bool.true_eq_false, false_iff]
          intro h
          exact hpr ⟨(hcons e he e0 h0 N hN h0N h.2).1 h.1, h.2⟩
      · have hnp : ¬ e0.has_pressure_node N := fun h => h0N (hwf e0 h0 N h)
        rw [if_neg (fun h => hnp h.2.1), if_neg (fun h => h0N h.2)]
        rcases List.mem_append.1 he with he | he
        · exact i3 e he N hN
        · rw [List.mem_singleton] at he
          subst he
          exact absurd hN h0N

end RefineableQTaylorHoodElement

namespace RefineableQTaylorHoodElement

/-- C15 (counterexample): node 5 is a pressure node of `small_element` and its
pressure is not hanging, but after `pin_redundant_nodal_pressures` on the vector
`[small_element, big_element]` its pressure is pinned, because `big_element`,
of which it is not a pressure node, is treated last. -/
theorem pin_redundant_nodal_pressures_last_element_wins :
    small_element ∈ [small_element, big_element] ∧
    small_element.has_node 5 ∧ small_element.has_pressure_node 5 ∧
    small_element.p_nodal_index_nst = 2 ∧
    free_nodes.hanging 5 2 = false ∧
    (pin_redundant_nodal_pressures [small_element, big_element] free_nodes).pinned 5 2 = true := by
  refine ⟨List.mem_cons_self _ _, by decide, by decide, rfl, rfl, by decide⟩

/-- C15 (amended): let the elements of the vector store the pressure at the same
index `p`, let the pressure nodes of each element be among its nodes, and let
the elements agree on shared nodes (a node with non-hanging pressure that
belongs to two elements is a pressure node of both or of neither).  Then after
`pin_redundant_nodal_pressures`, within each element the pressure at a node is
unpinned if and only if the node is a pressure node of the element and its
pressure is not hanging; the pressure at every other node of the element is
pinned; no other value changes its pinned status, and no hanging status
changes. -/
theorem pin_redundant_nodal_pressures_agreeing (p : Nat) (st : NodeStore)
    (es : List RefineableQTaylorHoodElement)
    (hp : ∀ e, e ∈ es → e.p_nodal_index_nst = p)
    (hwf : ∀ e, e ∈ es → ∀ N, e.has_pressure_node N → e.has_node N)
    (hcons : ∀ e1, e1 ∈ es → ∀ e2, e2 ∈ es → ∀ N, e1.has_node N → e2.has_node N →
      st.hanging N p = false → (e1.has_pressure_node N ↔ e2.has_pressure_node N)) :
    (∀ e, e ∈ es → ∀ N, e.has_node N →
      ((pin_redundant_nodal_pressures es st).pinned N p = false ↔
        e.has_pressure_node N ∧ st.hanging N p = false)) ∧
    (∀ e, e ∈ es → ∀ N, e.has_node N →
      ¬ (e.has_pressure_node N ∧ st.hanging N p = false) →
      (pin_redundant_nodal_pressures es st).pinned N p = true) ∧
    (∀ N v, v ≠ p → (pin_redundant_nodal_pressures es st).pinned N v = st.pinned N v) ∧
    (pin_redundant_nodal_pressures es st).hanging = st.hanging := by
  obtain ⟨h1, h2, h3⟩ := pin_redundant_spec p st es hp hwf hcons
  refine ⟨h3, ?_, h2, h1⟩
  intro e he N hN hnot
  cases hb : (pin_redundant_nodal_pressures es st).pinned N p with
  | true => rfl
  | false => exact absurd ((h3 e he N hN).1 hb) hnot

/-- C15 (witness): two neighbouring elements of the same size, nothing hanging;
the shared corner node 2 ends up unpinned and the shared mid-side node 5
pinned. -/
theorem pin_redundant_nodal_pressures_agreeing_witness :
    ((pin_redundant_nodal_pressures [big_element, neighbour_element] free_nodes).pinned 2 2 = false ↔
      big_element.has_pressure_node 2 ∧ free_nodes.hanging 2 2 = false) ∧
    (pin_redundant_nodal_pressures [big_element, neighbour_element] free_nodes).pinned 5 2 = true :=
  have h := pin_redundant_nodal_pressures_agreeing 2 free_nodes [big_element, neighbour_element]
    (by decide) (by decide) (by decide)
  ⟨h.1 big_element (List.mem_cons_self _ _) 2 (by decide),
    h.2.1 big_element (List.mem_cons_self _ _) 5 (by decide) (by decide)⟩

end RefineableQTaylorHoodElement

/-! ### Pressure node at a local coordinate -/

theorem int_of_double_eq_zero (x : ℚ) (h0 : 0 ≤ x) (h1 : x < 1) : int_of_double x = 0 := by
  unfold int_of_double
  rw [if_pos h0]
  have e : Rat.floor x = ⌊x⌋ := rfl
  rw [e, Int.floor_eq_zero_iff]
  exact ⟨h0, h1⟩

namespace RefineableQTaylorHoodElement

/-- What the loop body computes for a coordinate of the reference interval: index
1 only at `s_i = 1` exactly; nothing when the position `(1 + s_i)/2` in
node-index units is farther than the tolerance from both 0 and 1; index 0 in
every other case, also just below `s_i = 1`. -/
theorem pressure_index_1d_spec (tol s_i : ℚ) (h0 : 0 ≤ tol) (h1 : -1 ≤ s_i) (h2 : s_i ≤ 1) :
    pressure_index_1d tol s_i =
      if s_i = 1 then some 1
      else if tol < (1 + s_i) / 2 ∧ tol < 1 - (1 + s_i) / 2 then none
      else some 0 := by
  unfold pressure_index_1d
  simp only
  by_cases hm : s_i = -1
  · subst hm
    have ht : ¬ tol < 0 := not_lt.2 h0
    norm_num [ht]
  · by_cases hp : s_i = 1
    · subst hp
      norm_num
    · have hlt : s_i < 1 := lt_of_le_of_ne h2 hp
      have hgt : -1 < s_i := lt_of_le_of_ne h1 (Ne.symm hm)
      have hf : (0.5 : ℚ) * (1.0 + s_i) * (((2 : Nat) : ℚ) - 1) = (1 + s_i) / 2 := by
        norm_num
        ring
      have hz : int_of_double ((1 + s_i) / 2) = 0 :=
        int_of_double_eq_zero _ (by linarith) (by linarith)
      have hm' : ¬ s_i = -1.0 := by norm_num; exact hm
      have hp' : ¬ s_i = 1.0 := by norm_num; exact hp
      rw [if_neg hm', if_neg hp', if_neg hp, hf, hz]
      norm_num

/-- C14 (failing input): with the tolerance `1e-14`, at the local coordinate
`(1 - 1e-14, -1)` the point is within the tolerance of the corner `(1, -1)`,
pressure node 1 (the node returned at the exact corner), but the function
returns pressure node 0, the corner `(-1, -1)`. -/
theorem get_interpolating_node_below_upper_limit :
    big_element.get_interpolating_node_at_local_coordinate (1 / 10 ^ 14) (fun _ => none)
      [1 - 1 / 10 ^ 14, -1] 2 = some (big_element.pressure_node_pt 0) ∧
    big_element.get_interpolating_node_at_local_coordinate (1 / 10 ^ 14) (fun _ => none)
      [1, -1] 2 = some (big_element.pressure_node_pt 1) ∧
    big_element.pressure_node_pt 0 ≠ big_element.pressure_node_pt 1 ∧
    |(1 + (1 - 1 / 10 ^ 14 : ℚ)) / 2 - 1| ≤ 1 / 10 ^ 14 ∧
    ¬ |(1 + (1 - 1 / 10 ^ 14 : ℚ)) / 2 - 0| ≤ 1 / 10 ^ 14 := by
  refine ⟨by decide!, by decide!, by decide, ?_, ?_⟩
  · rw [abs_le]
    constructor <;> norm_num
  · rw [abs_le]
    norm_num

end RefineableQTaylorHoodElement

/-! ### Round trip of point location -/

namespace MeshAsGeomObject

end MeshAsGeomObject

namespace MeshAsGeomObject

end MeshAsGeomObject

/-! ### Pressure round trip in double arithmetic -/

namespace RefineableQCrouzeixRaviartElement

/-- With the identity as rounding, `further_build_fl` is `further_build`. -/
theorem further_build_fl_id (self father : RefineableQCrouzeixRaviartElement) (t : SonType) :
    self.further_build_fl id t father = self.further_build t father := rfl

/-- With the identity as rounding, `rebuild_from_sons_fl` is `rebuild_from_sons`. -/
theorem rebuild_from_sons_fl_id (self : RefineableQCrouzeixRaviartElement)
    (son_pt : SonType → RefineableQCrouzeixRaviartElement) :
    self.rebuild_from_sons_fl id son_pt = self.rebuild_from_sons son_pt := rfl

theorem value_further_build_fl (fl : ℚ → ℚ) (self father : RefineableQCrouzeixRaviartElement)
    (son_type : SonType) :
    (self.further_build_fl fl son_type father).P_nst_internal.value 0 =
      father.interpolated_p_nst_fl fl
        (if son_type = SonType.SW then [-0.5, -0.5]
          else if son_type = SonType.SE then [0.5, -0.5]
          else if son_type = SonType.NE then [0.5, 0.5]
          else if son_type = SonType.NW then [-0.5, 0.5]
          else [0, 0]) ∧
    (self.further_build_fl fl son_type father).P_nst_internal.value 1 =
      fl (0.5 * father.P_nst_internal.value 1) ∧
    (self.further_build_fl fl son_type father).P_nst_internal.value 2 =
      fl (0.5 * father.P_nst_internal.value 2) := by
  simp [further_build_fl, Data.set_value, Function.update]

theorem fl_eq_of_combination (fl : ℚ → ℚ) (father : RefineableQCrouzeixRaviartElement)
    (hfl : ∀ t, t ∈ computed_combinations → fl (combination father t) = combination father t)
    (x : ℚ) (a b c : Int) (hmem : (a, b, c) ∈ computed_combinations)
    (hx : x = (a : ℚ) * father.P_nst_internal.value 0
      + (b : ℚ) * (father.P_nst_internal.value 1 / 2)
      + (c : ℚ) * (father.P_nst_internal.value 2 / 2)) : fl x = x := by
  have h := hfl (a, b, c) hmem
  unfold combination at h
  simp only at h
  rw [hx]
  exact h

theorem centre_value_fl (fl : ℚ → ℚ) (father : RefineableQCrouzeixRaviartElement)
    (hfl : ∀ t, t ∈ computed_combinations → fl (combination father t) = combination father t)
    (b c : Int) (hb : b = 1 ∨ b = -1) (hc : c = 1 ∨ c = -1) :
    father.interpolated_p_nst_fl fl [(b : ℚ) * 0.5, (c : ℚ) * 0.5] =
      father.P_nst_internal.value 0 + (b : ℚ) * (father.P_nst_internal.value 1 / 2)
        + (c : ℚ) * (father.P_nst_internal.value 2 / 2) := by
  unfold interpolated_p_nst_fl
  simp only [List.getD_cons_zero, List.getD_cons_succ]
  have e1 : fl (father.P_nst_internal.value 1 * ((b : ℚ) * 0.5)) =
      father.P_nst_internal.value 1 * ((b : ℚ) * 0.5) :=
    fl_eq_of_combination fl father hfl _ 0 b 0
      (by rcases hb with rfl | rfl <;> decide) (by push_cast; norm_num; ring)
  have e2 : fl (father.P_nst_internal.value 2 * ((c : ℚ) * 0.5)) =
      father.P_nst_internal.value 2 * ((c : ℚ) * 0.5) :=
    fl_eq_of_combination fl father hfl _ 0 0 c
      (by rcases hc with rfl | rfl <;> decide) (by push_cast; norm_num; ring)
  have e3 : fl (father.P_nst_internal.value 0 + father.P_nst_internal.value 1 * ((b : ℚ) * 0.5)) =
      father.P_nst_internal.value 0 + father.P_nst_internal.value 1 * ((b : ℚ) * 0.5) :=
    fl_eq_of_combination fl father hfl _ 1 b 0
      (by rcases hb with rfl | rfl <;> decide) (by push_cast; norm_num; ring)
  have e4 : fl (father.P_nst_internal.value 0 + father.P_nst_internal.value 1 * ((b : ℚ) * 0.5)
      + father.P_nst_internal.value 2 * ((c : ℚ) * 0.5)) =
      father.P_nst_internal.value 0 + father.P_nst_internal.value 1 * ((b : ℚ) * 0.5)
      + father.P_nst_internal.value 2 * ((c : ℚ) * 0.5) :=
    fl_eq_of_combination fl father hfl _ 1 b c
      (by rcases hb with rfl | rfl <;> rcases hc with rfl | rfl <;> decide)
      (by push_cast; norm_num; ring)
  rw [e1, e2, e3, e4]
  norm_num
  ring


theorem son_centre_values_fl (fl : ℚ → ℚ) (father : RefineableQCrouzeixRaviartElement)
    (hfl : ∀ t, t ∈ computed_combinations → fl (combination father t) = combination father t)
    (sons : SonType → RefineableQCrouzeixRaviartElement) :
    ((sons SonType.SW).further_build_fl fl SonType.SW father).P_nst_internal.value 0 =
      father.P_nst_internal.value 0 - father.P_nst_internal.value 1 / 2
        - father.P_nst_internal.value 2 / 2 ∧
    ((sons SonType.SE).further_build_fl fl SonType.SE father).P_nst_internal.value 0 =
      father.P_nst_internal.value 0 + father.P_nst_internal.value 1 / 2
        - father.P_nst_internal.value 2 / 2 ∧
    ((sons SonType.NW).further_build_fl fl SonType.NW father).P_nst_internal.value 0 =
      father.P_nst_internal.value 0 - father.P_nst_internal.value 1 / 2
        + father.P_nst_internal.value 2 / 2 ∧
    ((sons SonType.NE).further_build_fl fl SonType.NE father).P_nst_internal.value 0 =
      father.P_nst_internal.value 0 + father.P_nst_internal.value 1 / 2
        + father.P_nst_internal.value 2 / 2 := by
  have hSW := centre_value_fl fl father hfl (-1) (-1) (Or.inr rfl) (Or.inr rfl)
  have hSE := centre_value_fl fl father hfl 1 (-1) (Or.inl rfl) (Or.inr rfl)
  have hNW := centre_value_fl fl father hfl (-1) 1 (Or.inr rfl) (Or.inl rfl)
  have hNE := centre_value_fl fl father hfl 1 1 (Or.inl rfl) (Or.inl rfl)
  have mSW : ([((-1 : Int) : ℚ) * 0.5, ((-1 : Int) : ℚ) * 0.5] : List ℚ) = [-0.5, -0.5] := by
    norm_num
  have mSE : ([((1 : Int) : ℚ) * 0.5, ((-1 : Int) : ℚ) * 0.5] : List ℚ) = [0.5, -0.5] := by
    norm_num
  have mNW : ([((-1 : Int) : ℚ) * 0.5, ((1 : Int) : ℚ) * 0.5] : List ℚ) = [-0.5, 0.5] := by
    norm_num
  have mNE : ([((1 : Int) : ℚ) * 0.5, ((1 : Int) : ℚ) * 0.5] : List ℚ) = [0.5, 0.5] := by
    norm_num
  rw [mSW] at hSW
  rw [mSE] at hSE
  rw [mNW] at hNW
  rw [mNE] at hNE
  refine ⟨?_, ?_, ?_, ?_⟩
  · rw [(value_further_build_fl fl _ father SonType.SW).1, if_pos rfl, hSW]
    push_cast
    ring
  · rw [(value_further_build_fl fl _ father SonType.SE).1, if_neg (by decide), if_pos rfl, hSE]
    push_cast
    ring
  · rw [(value_further_build_fl fl _ father SonType.NW).1, if_neg (by decide),
      if_neg (by decide), if_neg (by decide), if_pos rfl, hNW]
    push_cast
    ring
  · rw [(value_further_build_fl fl _ father SonType.NE).1, if_neg (by decide),
      if_neg (by decide), if_pos rfl, hNE]
    push_cast
    ring

/-- C13 (counterexample): in double arithmetic two fathers whose pressure values
are doubles are not restored.  For `(2^53, 1, 1)` each son gets the central
pressure `2^53`, because `2^53 ± 1/2` is rounded to `2^53`, and
`rebuild_from_sons` returns `(2^53, 0, 0)`.  For the doubles written
`(0.1, 0.2, 0.3)` the restored value 2 is one unit in the last place, `2^-54`,
below the double `0.3`. -/
theorem rebuild_from_sons_loses_slopes_in_double :
    ((∀ i, round_to_double (large_father.P_nst_internal.value i) =
      large_father.P_nst_internal.value i) ∧
    large_father.P_nst_internal.value 1 = 1 ∧
    large_father.P_nst_internal.value 2 = 1 ∧
    (fresh_son.rebuild_from_sons_fl round_to_double
      (fun t => fresh_son.further_build_fl round_to_double t large_father)).P_nst_internal.value 0
        = 2 ^ 53 ∧
    (fresh_son.rebuild_from_sons_fl round_to_double
      (fun t => fresh_son.further_build_fl round_to_double t large_father)).P_nst_internal.value 1
        = 0 ∧
    (fresh_son.rebuild_from_sons_fl round_to_double
      (fun t => fresh_son.further_build_fl round_to_double t large_father)).P_nst_internal.value 2
        = 0) ∧
    (decimal_father.P_nst_internal.value 2 = 5404319552844595 / 2 ^ 54 ∧
    (fresh_son.rebuild_from_sons_fl round_to_double
      (fun t => fresh_son.further_build_fl round_to_double t decimal_father)).P_nst_internal.value 2
        = 5404319552844594 / 2 ^ 54) := by
  refine ⟨⟨?_, by decide, by decide, by decide!, by decide!, by decide!⟩,
    by decide!, by decide!⟩
  intro i
  by_cases h : i = 0
  · subst h
    decide!
  · have e : large_father.P_nst_internal.value i = 1 := by simp [large_father, h]
    rw [e]
    decide!

/-- C13 (amended): if none of the sums, differences and products computed along
the way is changed by the rounding `fl` of the arithmetic (the values
`a*P0 + b*P1/2 + c*P2/2` of `computed_combinations` are left unchanged, as in
exact arithmetic), then `rebuild_from_sons` on a father whose four sons got
their pressure values from `further_build` restores exactly `(P0, P1, P2)`. -/
theorem rebuild_from_sons_after_further_build_unrounded (fl : ℚ → ℚ)
    (self father : RefineableQCrouzeixRaviartElement)
    (sons : SonType → RefineableQCrouzeixRaviartElement)
    (hfl : ∀ t, t ∈ computed_combinations → fl (combination father t) = combination father t) :
    (self.rebuild_from_sons_fl fl
      (fun t => (sons t).further_build_fl fl t father)).P_nst_internal.value 0 =
        father.P_nst_internal.value 0 ∧
    (self.rebuild_from_sons_fl fl
      (fun t => (sons t).further_build_fl fl t father)).P_nst_internal.value 1 =
        father.P_nst_internal.value 1 ∧
    (self.rebuild_from_sons_fl fl
      (fun t => (sons t).further_build_fl fl t father)).P_nst_internal.value 2 =
        father.P_nst_internal.value 2 := by
  obtain ⟨hSW, hSE, hNW, hNE⟩ := son_centre_values_fl fl father hfl sons
  have fx := fl_eq_of_combination fl father hfl
  refine ⟨?_, ?_, ?_⟩
  · simp only [rebuild_from_sons_fl, Data.set_value, List.foldl_cons, List.foldl_nil]
    simp only [Function.update_same, Function.update_noteq, ne_eq, OfNat.zero_ne_ofNat,
      not_false_eq_true, OfNat.ofNat_ne_zero, OfNat.ofNat_ne_one, OfNat.one_ne_ofNat,
      zero_ne_one, one_ne_zero]
    rw [hSW, hSE, hNW, hNE]
    rw [fx (0.0 + _) 1 (-1) (-1) (by decide) (by push_cast; norm_num; ring)]
    rw [fx (0.0 + _ + _) 2 0 (-2) (by decide) (by push_cast; norm_num; ring)]
    rw [fx (0.0 + _ + _ + _) 3 (-1) (-1) (by decide) (by push_cast; norm_num; ring)]
    rw [fx (0.0 + _ + _ + _ + _) 4 0 0 (by decide) (by push_cast; norm_num; ring)]
    rw [fx (0.25 * _) 1 0 0 (by decide) (by push_cast; norm_num; ring)]
    norm_num
    ring
  · simp only [rebuild_from_sons_fl, Data.set_value]
    simp [Function.update]
    rw [hSW, hSE, hNW, hNE]
    rw [fx (_ - _) 0 2 0 (by decide) (by push_cast; ring)]
    rw [fx (_ - _) 0 2 0 (by decide) (by push_cast; ring)]
    rw [fx (_ + _) 0 4 0 (by decide) (by push_cast; ring)]
    rw [fx (_ * _) 0 2 0 (by decide) (by push_cast; norm_num; ring)]
    norm_num
    ring
  · simp only [rebuild_from_sons_fl, Data.set_value]
    simp [Function.update]
    rw [hSW, hSE, hNW, hNE]
    rw [fx (_ - _) 0 0 2 (by decide) (by push_cast; ring)]
    rw [fx (_ - _) 0 0 2 (by decide) (by push_cast; ring)]
    rw [fx (_ + _) 0 0 4 (by decide) (by push_cast; ring)]
    rw [fx (_ * _) 0 0 2 (by decide) (by push_cast; norm_num; ring)]
    norm_num
    ring

/-- C13 (witness): in double arithmetic the father `(1, 2, 3)` is restored. -/
theorem rebuild_from_sons_after_further_build_unrounded_witness :
    (fresh_son.rebuild_from_sons_fl round_to_double
      (fun t => fresh_son.further_build_fl round_to_double t sample_father)).P_nst_internal.value 0
        = sample_father.P_nst_internal.value 0 ∧
    (fresh_son.rebuild_from_sons_fl round_to_double
      (fun t => fresh_son.further_build_fl round_to_double t sample_father)).P_nst_internal.value 1
        = sample_father.P_nst_internal.value 1 ∧
    (fresh_son.rebuild_from_sons_fl round_to_double
      (fun t => fresh_son.further_build_fl round_to_double t sample_father)).P_nst_internal.value 2
        = sample_father.P_nst_internal.value 2 :=
  rebuild_from_sons_after_further_build_unrounded round_to_double fresh_son sample_father
    (fun _ => fresh_son) (by decide!)

end RefineableQCrouzeixRaviartElement

end oomph
